import Mathlib

/-!
# Verification of the xpra video capability registry (`xpra/codecs/video_helper.py`)

A shallow embedding of the capability registry, lifecycle and negotiation
engine of `video_helper.py`, together with theorems checking the
specification's claims.

Modelling conventions:
* Python `dict`s (insertion-ordered) are association lists `List (κ × α)`
  with first-match lookup (`aget`), in-place update that preserves position
  and appends new keys at the end (`aset`).
* Python strings are Lean `String`s; the string operations the source uses
  (`startswith("-")`, `x[1:]`, `find("enc")`, `sorted`) are re-implemented
  over `String.data` so that they compute inside the kernel.
* External codec modules (the Module Loader of the spec) are records of
  total functions; a module that fails to load or introspect is `none` in
  the `Env` lookup, matching the source's per-module exception isolation
  (load failures are caught, logged and skipped, contributing nothing).
* The threading lock is omitted (single-threaded semantics); the
  `_initialized` flag is the field `inited`.
* For the clone/aliasing claim a second, heap-based model (`Store`) of the
  three-level dict structure is given, where dict and list objects live at
  `Nat` references, so that Python object identity and mutation can be
  expressed.
-/

set_option autoImplicit false

namespace XpraVideo

/-! ## Kernel-computable string primitives -/

/-- Char comparison by code point, as Python compares characters. -/
def charLeB (c d : Char) : Bool := Nat.ble c.toNat d.toNat

/-- Lexicographic order on char lists (Python string `<=`). -/
def charListLeB : List Char → List Char → Bool
  | [], _ => true
  | _ :: _, [] => false
  | c :: cs, d :: ds => if c = d then charListLeB cs ds else charLeB c d

/-- Python string comparison `s <= t`, computed on `String.data`. -/
def strLeB (s t : String) : Bool := charListLeB s.data t.data

/-- `strLeB` as a relation, for `List.insertionSort`. -/
def strLe (s t : String) : Prop := strLeB s t = true

instance strLe.decRel : DecidableRel strLe := fun s t => by
  unfold strLe; infer_instance

/-- Key-wise order on dict items; `sorted(d.items())` on a Python dict only
ever compares the (unique) keys. -/
def pairLe {β : Type} (p q : String × β) : Prop := strLe p.1 q.1

instance pairLe.decRel {β : Type} : DecidableRel (@pairLe β) := fun p q => by
  unfold pairLe; infer_instance

/-- Python `sorted` on a list of dict items (stable, ascending by key). -/
def sortPairs {β : Type} (l : List (String × β)) : List (String × β) :=
  List.insertionSort pairLe l

/-- Python `sorted` on a list of strings. -/
def sortStrs (l : List String) : List String := List.insertionSort strLe l

/-- Python `x.startswith("-")`. -/
def sdash (s : String) : Bool :=
  match s.data with
  | [] => false
  | c :: _ => c = '-'

/-- Python `x[1:]`. -/
def sdrop1 (s : String) : String := ⟨s.data.drop 1⟩

/-- Python `s.isEmpty` check used for string truthiness (`if x`). -/
def sEmpty (s : String) : Bool := s.data.isEmpty

/-- Is `pat` a leading segment of `l`? -/
def lPre : List Char → List Char → Bool
  | [], _ => true
  | _ :: _, [] => false
  | c :: cs, d :: ds => c = d && lPre cs ds

/-- Does `pat` occur as a contiguous segment of `l`? -/
def lSub (pat : List Char) : List Char → Bool
  | [] => pat.isEmpty
  | d :: rest => lPre pat (d :: rest) || lSub pat rest

/-- Python `x.find(pat) >= 0` (substring containment). -/
def strContains (s pat : String) : Bool := lSub pat.data s.data

/-! ## Association lists: insertion-ordered Python dicts -/

/-- First-match lookup `d.get(k)` / `d[k]`. -/
def aget {κ α : Type} [DecidableEq κ] : List (κ × α) → κ → Option α
  | [], _ => none
  | p :: rest, k => if p.1 = k then some p.2 else aget rest k

/-- Python `d[k] = v`: update in place (keeping the key's position) or
append a new binding at the end. -/
def aset {κ α : Type} [DecidableEq κ] : List (κ × α) → κ → α → List (κ × α)
  | [], k, v => [(k, v)]
  | p :: rest, k, v => if p.1 = k then (k, v) :: rest else p :: aset rest k v

/-- A Python dict with string keys. -/
abbrev Dict (α : Type) : Type := List (String × α)

/-- Python `d.get(k, dflt)`. -/
def dgetD {α : Type} (d : Dict α) (k : String) (dflt : α) : α := (aget d k).getD dflt

/-- The keys of a dict, in insertion order. -/
def dkeys {α : Type} (d : Dict α) : List String := d.map Prod.fst

/-- Python `d.setdefault(k, []).append(v)`. -/
def dappend {α : Type} (d : Dict (List α)) (k : String) (v : α) : Dict (List α) :=
  match aget d k with
  | some l => aset d k (l ++ [v])
  | none => d ++ [(k, [v])]

/-- Python `d.setdefault(k1, {}).setdefault(k2, []).append(v)`: the shape of
`add_encoder_spec`, `add_csc_spec`, `add_decoder` and the inner loop of
`clone`'s `deepish_clone_dict`. -/
def nested_add {α : Type} (d : Dict (Dict (List α))) (e c : String) (v : α) :
    Dict (Dict (List α)) :=
  aset d e (dappend (dgetD d e []) c v)

/-! ## Data model -/

/-- A capability spec: opaque to the registry except for `codec_type`
(`get_info` reads it); `details` stands for the remaining opaque payload. -/
structure Spec where
  codec_type : String
  details : Nat
  deriving DecidableEq

/-- A loaded video encoder module (the Module Loader handle the registry
introspects in `init_video_encoder_option`). -/
structure EncoderModule where
  get_type : String
  get_encodings : List String
  get_input_colorspaces : String → List String
  get_spec : String → String → Spec

/-- A loaded csc module (`init_csc_option`). -/
structure CscModule where
  get_type : String
  get_input_colorspaces : List String
  get_output_colorspaces : String → List String
  get_spec : String → String → Spec

/-- A loaded video decoder module (`init_video_decoder_option`); the
registry keeps the handle because `get_output_colorspace` is queried again
at negotiation time.  `hasDecoder` models the `decoder_module.Decoder`
attribute whose absence makes `add_decoder` skip the pair. -/
structure DecoderModule where
  get_type : String
  get_encodings : List String
  get_input_colorspaces : String → List String
  get_output_colorspace : String → String → String
  hasDecoder : Bool

/-- A decoder table entry: `(decoder_name, decoder_module)`. -/
abbrev DecoderEntry : Type := String × DecoderModule

/-- A module handle on the `_cleanup_modules` list: all `cleanup()` does
with it is call `cleanup_module()`, which may raise (`cleanup_raises`). -/
structure CleanupModule where
  name : String
  cleanup_raises : Bool
  deriving DecidableEq

/-- The codec loader (`get_codec` after `load_codec`): `none` means the
module could not be loaded (or raised during load), which the source
isolates per module. -/
structure Env where
  get_codec_enc : String → Option EncoderModule
  get_codec_csc : String → Option CscModule
  get_codec_dec : String → Option DecoderModule

/-- The process-wide catalog: `ALL_VIDEO_ENCODER_OPTIONS`,
`ALL_CSC_MODULE_OPTIONS`, `ALL_VIDEO_DECODER_OPTIONS` (computed once at
process start by the prober; immutable afterwards, hence a parameter). -/
structure Catalog where
  all_video_encoder_options : List String
  all_csc_module_options : List String
  all_video_decoder_options : List String

/-- The registry (`class VideoHelper`).  `inited` is `_initialized`; the
lock is omitted (single-threaded semantics). -/
structure VideoHelper where
  _video_encoder_specs : Dict (Dict (List Spec))
  _csc_encoder_specs : Dict (Dict (List Spec))
  _video_decoder_specs : Dict (Dict (List DecoderEntry))
  video_encoders : List String
  csc_modules : List String
  video_decoders : List String
  _cleanup_modules : List CleanupModule
  inited : Bool

/-! ## Module-name helpers -/

/-- `get_encoder_module_name`: `x` if it already mentions "enc", else
`"enc_" + x`. -/
def get_encoder_module_name (x : String) : String :=
  if strContains x "enc" then x else "enc_" ++ x

/-- `get_decoder_module_name`. -/
def get_decoder_module_name (x : String) : String := "dec_" ++ x

/-- `get_csc_module_name`. -/
def get_csc_module_name (x : String) : String := "csc_" ++ x

/-! ## Installed-defaults probes (`get_DEFAULT_*`) -/

/-- The loop of `get_DEFAULT_VIDEO_ENCODERS`: append the first loadable
encoder and `break`. -/
def get_DEFAULT_VIDEO_ENCODERS_loop (env : Env) (acc : List String) :
    List String → List String
  | [] => acc
  | x :: rest =>
    if (env.get_codec_enc (get_encoder_module_name x)).isSome then acc ++ [x]
    else get_DEFAULT_VIDEO_ENCODERS_loop env acc rest

/-- `get_DEFAULT_VIDEO_ENCODERS`. -/
def get_DEFAULT_VIDEO_ENCODERS (env : Env) (cat : Catalog) : List String :=
  get_DEFAULT_VIDEO_ENCODERS_loop env [] cat.all_video_encoder_options

/-- `get_DEFAULT_CSC_MODULES` (no `break`: appends every loadable one). -/
def get_DEFAULT_CSC_MODULES (env : Env) (cat : Catalog) : List String :=
  cat.all_csc_module_options.foldl
    (fun acc x =>
      if (env.get_codec_csc (get_csc_module_name x)).isSome then acc ++ [x] else acc)
    []

/-- `get_DEFAULT_VIDEO_DECODERS` (no `break`). -/
def get_DEFAULT_VIDEO_DECODERS (env : Env) (cat : Catalog) : List String :=
  cat.all_video_decoder_options.foldl
    (fun acc x =>
      if (env.get_codec_dec (get_decoder_module_name x)).isSome then acc ++ [x] else acc)
    []

/-! ## `set_modules` -/

/-- The exclusion list of `filt`: names written with a leading `-`. -/
def exclistOf (inlist : List String) : List String :=
  (inlist.filter (fun x => !sEmpty x && sdash x)).map sdrop1

/-- The inclusion list of `filt`: truthy names without the `-` marker. -/
def inclistOf (inlist : List String) : List String :=
  inlist.filter (fun x => !sEmpty x && !sdash x)

/-- `filt` inside `set_modules`.  Returns `(notfound, result)`: the names
reported by the warning, and the tuple the caller stores.  In the source
the warning is only computed (and emitted) in the branch without `"all"`. -/
def filt (inlist : List String) (all_list : List String) :
    List String × List String :=
  let exclist := exclistOf inlist
  if "all" ∈ inclistOf inlist then
    ([], all_list.filter (fun x => !decide (x ∈ exclist)))
  else
    ((exclist ++ inclistOf inlist).filter
        (fun x => !sEmpty x && !decide (x ∈ all_list)),
     (inclistOf inlist).filter (fun x => !decide (x ∈ exclist)))

/-- `set_modules`: asserts the registry is not yet initialized, then filters
the three selection lists against the catalog.  Returns the new registry and
the concatenated warning lists. -/
def set_modules (cat : Catalog) (reg : VideoHelper)
    (video_encoders csc_modules video_decoders : List String) :
    Except String (VideoHelper × List String) :=
  if reg.inited then
    Except.error "too late to set modules, the helper is already initialized!"
  else
    let f1 := filt video_encoders cat.all_video_encoder_options
    let f2 := filt csc_modules cat.all_csc_module_options
    let f3 := filt video_decoders cat.all_video_decoder_options
    Except.ok
      ({ reg with
          video_encoders := f1.2
          csc_modules := f2.2
          video_decoders := f3.2 },
       f1.1 ++ f2.1 ++ f3.1)

/-! ## `cleanup` -/

/-- The teardown loop of `cleanup()`: every module on the list has its
`cleanup_module()` invoked; a raising teardown is caught and logged, so the
loop continues.  Returns `(invoked, raisedAndLogged)`. -/
def cleanup_loop (cmods : List CleanupModule) :
    List CleanupModule × List CleanupModule :=
  cmods.foldl
    (fun acc m =>
      (acc.1 ++ [m], if m.cleanup_raises then acc.2 ++ [m] else acc.2))
    ([], [])

/-- `cleanup()`: no-op when not initialized; otherwise run the teardown loop
over `_cleanup_modules`, then clear the three tables, the enabled-module
lists and the flag.  Returns the registry plus the loop's two traces. -/
def cleanup (reg : VideoHelper) :
    VideoHelper × List CleanupModule × List CleanupModule :=
  if reg.inited then
    let r := cleanup_loop reg._cleanup_modules
    ({ _video_encoder_specs := []
       _csc_encoder_specs := []
       _video_decoder_specs := []
       video_encoders := []
       csc_modules := []
       video_decoders := []
       _cleanup_modules := []
       inited := false },
     r.1, r.2)
  else (reg, [], [])

/-! ## Registry accessors -/

/-- `get_encodings`. -/
def get_encodings (reg : VideoHelper) : List String :=
  dkeys reg._video_encoder_specs

/-- `get_decodings`. -/
def get_decodings (reg : VideoHelper) : List String :=
  dkeys reg._video_decoder_specs

/-- `get_csc_inputs`. -/
def get_csc_inputs (reg : VideoHelper) : List String :=
  dkeys reg._csc_encoder_specs

/-- `get_encoder_specs(encoding)`: the inner mapping or `{}`. -/
def get_encoder_specs (reg : VideoHelper) (encoding : String) :
    Dict (List Spec) :=
  dgetD reg._video_encoder_specs encoding []

/-- `get_csc_specs(src_format)`. -/
def get_csc_specs (reg : VideoHelper) (src_format : String) :
    Dict (List Spec) :=
  dgetD reg._csc_encoder_specs src_format []

/-- `get_decoder_specs(encoding)`. -/
def get_decoder_specs (reg : VideoHelper) (encoding : String) :
    Dict (List DecoderEntry) :=
  dgetD reg._video_decoder_specs encoding []

/-! ## Initialization -/

/-- `add_encoder_spec`. -/
def add_encoder_spec (reg : VideoHelper) (encoding colorspace : String)
    (spec : Spec) : VideoHelper :=
  { reg with
      _video_encoder_specs :=
        nested_add reg._video_encoder_specs encoding colorspace spec }

/-- `add_csc_spec`. -/
def add_csc_spec (reg : VideoHelper) (in_csc out_csc : String) (spec : Spec) :
    VideoHelper :=
  { reg with
      _csc_encoder_specs :=
        nested_add reg._csc_encoder_specs in_csc out_csc spec }

/-- `add_decoder`. -/
def add_decoder (reg : VideoHelper) (encoding colorspace : String)
    (decoder_name : String) (decoder_module : DecoderModule) : VideoHelper :=
  { reg with
      _video_decoder_specs :=
        nested_add reg._video_decoder_specs encoding colorspace
          (decoder_name, decoder_module) }

/-- `init_video_encoder_option`: a module that did not load contributes
nothing; otherwise register a spec per declared (encoding, colorspace). -/
def init_video_encoder_option (env : Env) (reg : VideoHelper)
    (encoder_name : String) : VideoHelper :=
  match env.get_codec_enc encoder_name with
  | none => reg
  | some encoder_module =>
    encoder_module.get_encodings.foldl
      (fun reg encoding =>
        (encoder_module.get_input_colorspaces encoding).foldl
          (fun reg colorspace =>
            add_encoder_spec reg encoding colorspace
              (encoder_module.get_spec encoding colorspace))
          reg)
      reg

/-- `init_video_encoders_options`: per enabled encoder name, load and
introspect; failures are per-module (modelled by the `none` case above). -/
def init_video_encoders_options (env : Env) (reg : VideoHelper) : VideoHelper :=
  reg.video_encoders.foldl
    (fun reg x => init_video_encoder_option env reg (get_encoder_module_name x))
    reg

/-- `init_csc_option`. -/
def init_csc_option (env : Env) (reg : VideoHelper) (csc_name : String) :
    VideoHelper :=
  match env.get_codec_csc csc_name with
  | none => reg
  | some csc_module =>
    csc_module.get_input_colorspaces.foldl
      (fun reg in_csc =>
        (csc_module.get_output_colorspaces in_csc).foldl
          (fun reg out_csc =>
            add_csc_spec reg in_csc out_csc (csc_module.get_spec in_csc out_csc))
          reg)
      reg

/-- `init_csc_options`. -/
def init_csc_options (env : Env) (reg : VideoHelper) : VideoHelper :=
  reg.csc_modules.foldl
    (fun reg x => init_csc_option env reg (get_csc_module_name x))
    reg

/-- `init_video_decoder_option`: registers a `(name, handle)` entry per
declared pair, skipping pairs when the module's `Decoder` attribute is
absent (the caught assertion). -/
def init_video_decoder_option (env : Env) (reg : VideoHelper)
    (decoder_name : String) : VideoHelper :=
  match env.get_codec_dec decoder_name with
  | none => reg
  | some decoder_module =>
    decoder_module.get_encodings.foldl
      (fun reg encoding =>
        (decoder_module.get_input_colorspaces encoding).foldl
          (fun reg colorspace =>
            if decoder_module.hasDecoder then
              add_decoder reg encoding colorspace decoder_name decoder_module
            else reg)
          reg)
      reg

/-- `init_video_decoders_options`. -/
def init_video_decoders_options (env : Env) (reg : VideoHelper) : VideoHelper :=
  reg.video_decoders.foldl
    (fun reg x => init_video_decoder_option env reg (get_decoder_module_name x))
    reg

/-- `init()`: re-checks the flag (no-op when already initialized), else runs
the three phases and marks initialized. -/
def init (env : Env) (reg : VideoHelper) : VideoHelper :=
  if reg.inited then reg
  else
    { init_video_decoders_options env
        (init_csc_options env (init_video_encoders_options env reg)) with
      inited := true }

/-! ## `clone` (pure model) -/

/-- All `(outerKey, innerKey, value)` triples of a two-level dict, in the
iteration order of `deepish_clone_dict`'s three nested loops. -/
def pureTriples {α : Type} (d : Dict (Dict (List α))) :
    List (String × String × α) :=
  d.flatMap (fun p => p.2.flatMap (fun q => q.2.map (fun v => (p.1, q.1, v))))

/-- The `(innerKey, value)` pairs of one inner dict, in iteration order
(spec-side helper for reasoning about the clone walk). -/
def innerPairs {α : Type} (m : Dict (List α)) : List (String × α) :=
  m.flatMap (fun q => q.2.map (fun v => (q.1, v)))

/-- `deepish_clone_dict`: walk every triple of the source dict, replaying
`outd.setdefault(enc, {}).setdefault(ifmt, []).append(v)` into a fresh dict. -/
def deepish_clone_dict {α : Type} (indict : Dict (Dict (List α))) :
    Dict (Dict (List α)) :=
  (pureTriples indict).foldl (fun outd t => nested_add outd t.1 t.2.1 t.2.2) []

/-- `clone()`: initialize first if needed, then rebuild the three tables via
`deepish_clone_dict` and return a fresh registry marked initialized
(`VideoHelper(ves, ces, vds, True)` leaves the other fields at their
constructor defaults). -/
def clone (env : Env) (reg : VideoHelper) : VideoHelper :=
  let r := if reg.inited then reg else init env reg
  { _video_encoder_specs := deepish_clone_dict r._video_encoder_specs
    _csc_encoder_specs := deepish_clone_dict r._csc_encoder_specs
    _video_decoder_specs := deepish_clone_dict r._video_decoder_specs
    video_encoders := []
    csc_modules := []
    video_decoders := []
    _cleanup_modules := []
    inited := true }

/-! ## `get_info` -/

/-- `modstatus` inside `get_info`. -/
def modstatus (x : String) (def_list active_list : List String) : String :=
  if x ∈ active_list then "active"
  else if x ∈ def_list then "disabled"
  else "not found"

/-- The structured report of `get_info`.  The Python function builds one
nested dict; the fields map to its keys as follows: `encoding_pairs` holds
einfo's `"<in_csc>_to_<encoding>"` entries, `video_encoder` is
`einfo["video-encoder"]`, `csc_module` is `einfo["csc-module"]`,
`csc_pairs` is the `"csc"` sub-dict and `decoding_pairs` the `"decoding"`
sub-dict.  (The status keys `"video-encoder"`/`"csc-module"` can never
collide with a pair key, which always contains `"_to_"`.) -/
structure Info where
  encoding_pairs : Dict (List String)
  video_encoder : Dict String
  csc_module : Dict String
  csc_pairs : Dict (List String)
  decoding_pairs : Dict (List String)

/-- `get_info`: the per-pair module lists, plus a status for every module of
the encoder catalog and of the csc catalog (the source computes no status
for decoder-catalog modules). -/
def get_info (cat : Catalog) (env : Env) (reg : VideoHelper) : Info :=
  let einfo : Dict (List String) :=
    reg._video_encoder_specs.foldl
      (fun d p =>
        p.2.foldl
          (fun d q =>
            q.2.foldl
              (fun d spec => dappend d (q.1 ++ "_to_" ++ p.1) spec.codec_type)
              d)
          d)
      []
  let cinfo : Dict (List String) :=
    reg._csc_encoder_specs.foldl
      (fun d p =>
        p.2.foldl
          (fun d q => aset d (p.1 ++ "_to_" ++ q.1) (q.2.map Spec.codec_type))
          d)
      []
  let dinfo : Dict (List String) :=
    reg._video_decoder_specs.foldl
      (fun d p =>
        p.2.foldl
          (fun d q =>
            q.2.foldl (fun d de => dappend d (p.1 ++ "_to_" ++ q.1) de.1) d)
          d)
      []
  let venc : Dict String :=
    cat.all_video_encoder_options.foldl
      (fun d x =>
        aset d x (modstatus x (get_DEFAULT_VIDEO_ENCODERS env cat) reg.video_encoders))
      []
  let cscm : Dict String :=
    cat.all_csc_module_options.foldl
      (fun d x =>
        aset d x (modstatus x (get_DEFAULT_CSC_MODULES env cat) reg.csc_modules))
      []
  ⟨einfo, venc, cscm, cinfo, dinfo⟩

/-- Does `get_info`'s report carry any entry keyed by module name `m`?
(Spec-side scanner used to state that decoder modules get no status.) -/
def hasStatusFor (info : Info) (m : String) : Bool :=
  (aget info.video_encoder m).isSome || (aget info.csc_module m).isSome ||
  (aget info.encoding_pairs m).isSome || (aget info.csc_pairs m).isSome ||
  (aget info.decoding_pairs m).isSome

/-! ## Negotiation engine -/

/-- Innermost loop body of `get_server_full_csc_modes`: one decoder entry.
If the decoder's actual output colorspace for `(encoding, colorspace)` is in
the peer set, `setdefault(encoding, [])` and append `colorspace` unless
already recorded. -/
def processDecoder (modes : List String) (encoding colorspace : String)
    (acc : Dict (List String)) (de : DecoderEntry) : Dict (List String) :=
  if de.2.get_output_colorspace encoding colorspace ∈ modes then
    if colorspace ∈ dgetD acc encoding [] then acc
    else aset acc encoding (dgetD acc encoding [] ++ [colorspace])
  else acc

/-- Middle loop: one `(colorspace, decoder_specs)` item. -/
def processColorspace (modes : List String) (encoding : String)
    (acc : Dict (List String)) (p : String × List DecoderEntry) :
    Dict (List String) :=
  p.2.foldl (processDecoder modes encoding p.1) acc

/-- `get_server_full_csc_modes`: for every decoder-table encoding, iterate
`sorted(encoding_specs.items())` and each entry's decoders. -/
def get_server_full_csc_modes (reg : VideoHelper)
    (client_supported_csc_modes : List String) : Dict (List String) :=
  reg._video_decoder_specs.foldl
    (fun acc q =>
      (sortPairs q.2).foldl
        (processColorspace client_supported_csc_modes q.1) acc)
    []

/-- Spec-side: does some decoder under `(encoding, p.1)` output into the
peer set? -/
def decoderViable (modes : List String) (encoding : String)
    (p : String × List DecoderEntry) : Bool :=
  p.2.any (fun de => decide (de.2.get_output_colorspace encoding p.1 ∈ modes))

/-- Append keeping first-seen occurrences only. -/
def dedupAppend (l : List String) (x : String) : List String :=
  if x ∈ l then l else l ++ [x]

/-- Deduplicate, preserving first-seen order. -/
def dedupFirst (xs : List String) : List String := xs.foldl dedupAppend []

/-- Spec-side value of `get_server_full_csc_modes` at one encoding: the
input colorspaces with a viable decoder, in the traversal's (sorted) order,
deduplicated keeping first occurrences. -/
def viableColorspaces (reg : VideoHelper) (modes : List String)
    (encoding : String) : List String :=
  dedupFirst
    (((sortPairs (dgetD reg._video_decoder_specs encoding [])).filter
        (decoderViable modes encoding)).map Prod.fst)

/-- The empty list denotes an absent key. -/
def listToOpt (l : List String) : Option (List String) :=
  if l = [] then none else some l

/-- Spec-side step: the effect of one `(colorspace, decoders)` item of the
traversal on the entry recorded for `encoding` (absent = `none`). -/
def gstep (modes : List String) (encoding : String) (o : Option (List String))
    (p : String × List DecoderEntry) : Option (List String) :=
  if decoderViable modes encoding p = true ∧ p.1 ∉ o.getD [] then
    some (o.getD [] ++ [p.1])
  else o

/-- Spec-side step on the recorded colorspace list alone. -/
def blstep (modes : List String) (encoding : String) (cur : List String)
    (p : String × List DecoderEntry) : List String :=
  if decoderViable modes encoding p = true ∧ p.1 ∉ cur then cur ++ [p.1]
  else cur

/-- The extended colorspace list built by `get_server_full_csc_modes_for_rgb`
before sorting: the target RGB modes, then every csc-table input colorspace
with a non-empty spec list into one of them (the inner `break` makes one
append per source format). -/
def extended_csc_modes (reg : VideoHelper) (target_rgb_modes : List String) :
    List String :=
  reg._csc_encoder_specs.foldl
    (fun acc p =>
      if p.2.any (fun q => decide (q.1 ∈ target_rgb_modes) && !q.2.isEmpty) then
        acc ++ [p.1]
      else acc)
    target_rgb_modes

/-- `get_server_full_csc_modes_for_rgb`: sort the extended list and delegate. -/
def get_server_full_csc_modes_for_rgb (reg : VideoHelper)
    (target_rgb_modes : List String) : Dict (List String) :=
  get_server_full_csc_modes reg (sortStrs (extended_csc_modes reg target_rgb_modes))

/-! ## Heap model of the three-level tables, for the clone claim

Python dict and list objects are mutable heap objects; `clone()`'s
`deepish_clone_dict` promises that the clone's containers are *new*
objects so that mutating one registry's table never shows through the
other.  To state that, the containers live in a `Store` at `Nat`
references: `outers` maps an outer-dict reference to its contents
(an insertion-ordered map from encoding to inner-dict reference),
`inners` likewise maps to (colorspace ↦ list reference), and `lists`
holds the spec lists.  `next` is the allocator: every live reference is
below it, and fresh objects take references at it. -/

structure Store (α : Type) where
  outers : List (Nat × Dict Nat)
  inners : List (Nat × Dict Nat)
  lists : List (Nat × List α)
  next : Nat

/-- Heap `d.setdefault(enc, {})` on the outer dict object at `outerRef`:
return the existing inner-dict reference or allocate a fresh empty one and
bind it. -/
def hSetdefaultOuter {α : Type} (st : Store α) (outerRef : Nat) (enc : String) :
    Store α × Nat :=
  match aget ((aget st.outers outerRef).getD []) enc with
  | some ir => (st, ir)
  | none =>
    ({ st with
        inners := st.inners ++ [(st.next, [])]
        outers := aset st.outers outerRef
          ((aget st.outers outerRef).getD [] ++ [(enc, st.next)])
        next := st.next + 1 },
     st.next)

/-- Heap `d.setdefault(cs, [])` on the inner dict object at `innerRef`. -/
def hSetdefaultInner {α : Type} (st : Store α) (innerRef : Nat) (cs : String) :
    Store α × Nat :=
  match aget ((aget st.inners innerRef).getD []) cs with
  | some lr => (st, lr)
  | none =>
    ({ st with
        lists := st.lists ++ [(st.next, [])]
        inners := aset st.inners innerRef
          ((aget st.inners innerRef).getD [] ++ [(cs, st.next)])
        next := st.next + 1 },
     st.next)

/-- Heap `l.append(v)` on the list object at `listRef`. -/
def hAppendList {α : Type} (st : Store α) (listRef : Nat) (v : α) : Store α :=
  { st with
      lists := aset st.lists listRef ((aget st.lists listRef).getD [] ++ [v]) }

/-- Heap `specs.setdefault(enc, {}).setdefault(cs, []).append(v)`: the body
of `add_encoder_spec` and of `deepish_clone_dict`'s walk. -/
def hAddSpec {α : Type} (st : Store α) (outerRef : Nat) (enc cs : String)
    (v : α) : Store α :=
  hAppendList
    (hSetdefaultInner (hSetdefaultOuter st outerRef enc).1
      (hSetdefaultOuter st outerRef enc).2 cs).1
    (hSetdefaultInner (hSetdefaultOuter st outerRef enc).1
      (hSetdefaultOuter st outerRef enc).2 cs).2
    v

/-- All `(enc, cs, value)` triples reachable from the outer dict at
`srcRef`, in the iteration order of `deepish_clone_dict`'s loops.  The walk
never mutates the source's objects, so reading this snapshot up front is
the same as reading during the walk. -/
def hTriples {α : Type} (st : Store α) (srcRef : Nat) :
    List (String × String × α) :=
  ((aget st.outers srcRef).getD []).flatMap (fun p =>
    ((aget st.inners p.2).getD []).flatMap (fun q =>
      ((aget st.lists q.2).getD []).map (fun v => (p.1, q.1, v))))

/-- Heap `deepish_clone_dict`: allocate a fresh outer dict (`outd = {}`)
at reference `st.next` and replay every source triple into it.  Returns
the new store and the fresh outer-dict reference. -/
def hCloneDict {α : Type} (st : Store α) (srcRef : Nat) : Store α × Nat :=
  ((hTriples st srcRef).foldl
      (fun s t => hAddSpec s st.next t.1 t.2.1 t.2.2)
      { st with outers := st.outers ++ [(st.next, [])], next := st.next + 1 },
   st.next)

/-- A registry in the heap model: references to its three outer dict
objects (each in its own store), plus the `_initialized` flag. -/
structure HVideoHelper where
  vencRef : Nat
  cscRef : Nat
  vdecRef : Nat
  inited : Bool

/-- The three heaps backing `_video_encoder_specs`, `_csc_encoder_specs`
and `_video_decoder_specs`. -/
structure HState where
  encs : Store Spec
  cscs : Store Spec
  decs : Store DecoderEntry

/-- Heap `clone()` of an initialized registry: `deepish_clone_dict` each
table and mark the new registry initialized. -/
def hClone (hs : HState) (r : HVideoHelper) : HState × HVideoHelper :=
  let e := hCloneDict hs.encs r.vencRef
  let c := hCloneDict hs.cscs r.cscRef
  let d := hCloneDict hs.decs r.vdecRef
  (⟨e.1, c.1, d.1⟩, ⟨e.2, c.2, d.2, true⟩)

/-- Heap `get_encodings` for a table: the outer dict object's keys. -/
def hDictKeys {α : Type} (st : Store α) (ref : Nat) : List String :=
  dkeys ((aget st.outers ref).getD [])

/-! ## Concrete inputs for witnesses and counterexamples -/

/-- The decoder module of the spec's worked example: its actual output
colorspace for ("V1", "YUV420P") is "RGB". -/
def exDec1 : DecoderModule :=
  { get_type := "d"
    get_encodings := ["V1"]
    get_input_colorspaces := fun _ => ["YUV420P"]
    get_output_colorspace := fun _ _ => "RGB"
    hasDecoder := true }

/-- A registry with one decoder entry for ("V1", "YUV420P"). -/
def exReg1 : VideoHelper :=
  { _video_encoder_specs := []
    _csc_encoder_specs := []
    _video_decoder_specs := [("V1", [("YUV420P", [("dec_d", exDec1)])])]
    video_encoders := []
    csc_modules := []
    video_decoders := []
    _cleanup_modules := []
    inited := true }

/-- `exReg1` extended with one csc spec "YUV444P" → "RGB". -/
def exReg2 : VideoHelper :=
  { exReg1 with
      _csc_encoder_specs :=
        [("YUV444P", [("RGB", [{ codec_type := "csc", details := 0 }])])] }

/-- An environment in which no codec module loads. -/
def exEnvEmpty : Env :=
  { get_codec_enc := fun _ => none
    get_codec_csc := fun _ => none
    get_codec_dec := fun _ => none }

/-- A registry used for the cleanup witness: two cleanup modules, the first
of which raises during teardown. -/
def exReg7 : VideoHelper :=
  { exReg1 with
      _cleanup_modules := [⟨"m1", true⟩, ⟨"m2", false⟩] }

/-- Catalog for the `get_info` counterexample: one decoder module "dex",
no encoders, no csc modules. -/
def exCat9 : Catalog :=
  { all_video_encoder_options := []
    all_csc_module_options := []
    all_video_decoder_options := ["dex"] }

/-- Registry with "dex" enabled as a decoder. -/
def exReg9 : VideoHelper :=
  { exReg1 with video_decoders := ["dex"] }

/-- An encoder module available under any name (for the installed-defaults
witness). -/
def exEncMod : EncoderModule :=
  { get_type := "e"
    get_encodings := []
    get_input_colorspaces := fun _ => []
    get_spec := fun _ _ => { codec_type := "e", details := 0 } }

/-- An environment in which every encoder module loads. -/
def exEnvAllEnc : Env :=
  { exEnvEmpty with get_codec_enc := fun _ => some exEncMod }

/-- Catalog with two encoders, to exhibit the `break` in
`get_DEFAULT_VIDEO_ENCODERS`. -/
def exCat10 : Catalog :=
  { all_video_encoder_options := ["x264", "vpx"]
    all_csc_module_options := ["swscale"]
    all_video_decoder_options := ["avcodec2", "vpx"] }

/-- A one-entry heap store for the clone witness: outer dict 0 maps "e0" to
inner dict 1, which maps "c0" to list 2 holding one spec. -/
def exStore3 : Store Spec :=
  { outers := [(0, [("e0", 1)])]
    inners := [(1, [("c0", 2)])]
    lists := [(2, [{ codec_type := "t", details := 0 }])]
    next := 3 }

/-- Heap registry whose encoder table is `exStore3`'s dict 0. -/
def exHReg3 : HVideoHelper := ⟨0, 0, 0, true⟩

/-- Heap state for the clone witness (csc and decoder stores empty). -/
def exHState3 : HState :=
  { encs := exStore3
    cscs := { outers := [(0, [])], inners := [], lists := [], next := 1 }
    decs := { outers := [(0, [])], inners := [], lists := [], next := 1 } }

/-! ## Association-list lemmas -/

section ALemmas

variable {κ α : Type} [DecidableEq κ]

theorem aget_aset_self (d : List (κ × α)) (k : κ) (v : α) :
    aget (aset d k v) k = some v := by
  induction d with
  | nil => simp [aget, aset]
  | cons p rest ih =>
    by_cases h : p.1 = k
    · simp [aget, aset, h]
    · simp [aget, aset, h, ih]

theorem aget_aset_ne (d : List (κ × α)) (k k' : κ) (v : α) (h : k' ≠ k) :
    aget (aset d k v) k' = aget d k' := by
  induction d with
  | nil => simp [aget, aset, Ne.symm h]
  | cons p rest ih =>
    by_cases hp : p.1 = k
    · simp [aget, aset, hp, Ne.symm h]
    · simp [aget, aset, hp, ih]

theorem aset_aset (d : List (κ × α)) (k : κ) (v w : α) :
    aset (aset d k v) k w = aset d k w := by
  induction d with
  | nil => simp [aset]
  | cons p rest ih =>
    by_cases h : p.1 = k
    · simp [aset, h]
    · simp [aset, h, ih]

theorem aget_append_of_some (d₁ d₂ : List (κ × α)) (k : κ) (v : α)
    (h : aget d₁ k = some v) : aget (d₁ ++ d₂) k = some v := by
  induction d₁ with
  | nil => simp [aget] at h
  | cons p rest ih =>
    by_cases hp : p.1 = k
    · simp [aget, hp] at h ⊢; exact h
    · simp [aget, hp] at h ⊢; exact ih h

theorem aget_append_of_none (d₁ d₂ : List (κ × α)) (k : κ)
    (h : aget d₁ k = none) : aget (d₁ ++ d₂) k = aget d₂ k := by
  induction d₁ with
  | nil => simp
  | cons p rest ih =>
    by_cases hp : p.1 = k
    · simp [aget, hp] at h
    · simp [aget, hp] at h ⊢; exact ih h

theorem aget_eq_none_iff (d : List (κ × α)) (k : κ) :
    aget d k = none ↔ k ∉ d.map Prod.fst := by
  induction d with
  | nil => simp [aget]
  | cons p rest ih =>
    by_cases hp : p.1 = k
    · simp [aget, hp]
    · rw [aget, if_neg hp, ih]
      simp only [List.map_cons, List.mem_cons]
      constructor
      · intro hn hmem
        rcases hmem with h1 | h2
        · exact hp h1.symm
        · exact hn h2
      · intro hn hm
        exact hn (Or.inr hm)

theorem aget_mem (d : List (κ × α)) (k : κ) (v : α) (h : aget d k = some v) :
    (k, v) ∈ d := by
  induction d with
  | nil => simp [aget] at h
  | cons p rest ih =>
    by_cases hp : p.1 = k
    · rw [aget, if_pos hp] at h
      have hv : p.2 = v := Option.some.inj h
      have hpk : p = (k, v) := Prod.ext hp hv
      rw [← hpk]
      exact List.mem_cons_self p rest
    · rw [aget, if_neg hp] at h
      exact List.mem_cons_of_mem _ (ih h)

theorem aget_isSome_of_mem_keys (d : List (κ × α)) (k : κ)
    (h : k ∈ d.map Prod.fst) : (aget d k).isSome = true := by
  cases hg : aget d k with
  | none => exact absurd ((aget_eq_none_iff d k).mp hg) (fun hh => hh h)
  | some v => rfl

theorem aset_absent (d : List (κ × α)) (k : κ) (v : α)
    (h : aget d k = none) : aset d k v = d ++ [(k, v)] := by
  induction d with
  | nil => simp [aset]
  | cons p rest ih =>
    by_cases hp : p.1 = k
    · simp [aget, hp] at h
    · simp [aget, hp] at h
      simp [aset, hp, ih h]

theorem aset_cons_ne (p : κ × α) (d : List (κ × α)) (k : κ) (v : α)
    (h : p.1 ≠ k) : aset (p :: d) k v = p :: aset d k v := by
  simp [aset, h]

theorem aget_cons_ne (p : κ × α) (d : List (κ × α)) (k : κ)
    (h : p.1 ≠ k) : aget (p :: d) k = aget d k := by
  simp [aget, h]

end ALemmas

/-- `dappend` is `aset` of the extended list. -/
theorem dappend_eq_aset {α : Type} (d : Dict (List α)) (k : String) (v : α) :
    dappend d k v = aset d k (dgetD d k [] ++ [v]) := by
  unfold dappend dgetD
  cases h : aget d k with
  | some l => simp
  | none => simp [aset_absent d k _ h]

/-! ## Claim C6: `init` is idempotent -/

theorem init_of_inited (env : Env) (reg : VideoHelper) (h : reg.inited = true) :
    init env reg = reg := by
  unfold init; simp [h]

theorem init_inited (env : Env) (reg : VideoHelper) :
    (init env reg).inited = true := by
  unfold init
  by_cases h : reg.inited
  · simp [h]
  · simp [h]

/-- C6: `init` is idempotent: a second call on an already-initialized
registry returns the registry unchanged (tables, enabled lists and flag
untouched), and `init ∘ init = init`. -/
theorem C6_init_idempotent :
    (∀ (env : Env) (reg : VideoHelper), reg.inited = true → init env reg = reg)
    ∧ (∀ (env : Env) (reg : VideoHelper),
        init env (init env reg) = init env reg) :=
  ⟨fun env reg h => init_of_inited env reg h,
   fun env reg => init_of_inited env (init env reg) (init_inited env reg)⟩

/-- C6 witness: a second `init` on the concrete initialized registry
`exReg1` is the identity. -/
theorem C6_witness : init exEnvEmpty exReg1 = exReg1 :=
  C6_init_idempotent.1 exEnvEmpty exReg1 rfl

/-! ## Claim C7: `cleanup` -/

theorem cleanup_loop_fst (cmods : List CleanupModule)
    (acc : List CleanupModule × List CleanupModule) :
    (cmods.foldl
        (fun acc m =>
          (acc.1 ++ [m], if m.cleanup_raises then acc.2 ++ [m] else acc.2))
        acc).1 = acc.1 ++ cmods := by
  induction cmods generalizing acc with
  | nil => simp
  | cons m rest ih => simp [ih]

/-- C7: `cleanup` on an initialized registry attempts every module on the
cleanup list (teardown failures are isolated, so the invoked trace is the
whole list regardless of which modules raise), then clears the three
tables, the enabled lists and the flag; on an uninitialized registry it is
a no-op, and it is idempotent. -/
theorem C7_cleanup :
    (∀ cmods : List CleanupModule, (cleanup_loop cmods).1 = cmods)
    ∧ (∀ reg : VideoHelper, reg.inited = true →
        (cleanup reg).1 = ⟨[], [], [], [], [], [], [], false⟩
        ∧ (cleanup reg).2.1 = reg._cleanup_modules)
    ∧ (∀ reg : VideoHelper, reg.inited = false → cleanup reg = (reg, [], []))
    ∧ (∀ reg : VideoHelper,
        cleanup (cleanup reg).1 = ((cleanup reg).1, [], [])) := by
  have hloop : ∀ cmods : List CleanupModule, (cleanup_loop cmods).1 = cmods := by
    intro cmods
    have := cleanup_loop_fst cmods ([], [])
    simpa [cleanup_loop] using this
  have hinit : ∀ reg : VideoHelper, reg.inited = true →
      (cleanup reg).1 = ⟨[], [], [], [], [], [], [], false⟩
      ∧ (cleanup reg).2.1 = reg._cleanup_modules := by
    intro reg h
    unfold cleanup
    simp [h, hloop]
  have hno : ∀ reg : VideoHelper, reg.inited = false →
      cleanup reg = (reg, [], []) := by
    intro reg h
    unfold cleanup
    simp [h]
  refine ⟨hloop, hinit, hno, ?_⟩
  intro reg
  by_cases h : reg.inited
  · have h1 := (hinit reg h).1
    rw [h1]
    exact hno _ rfl
  · have h0 : reg.inited = false := by simpa using h
    rw [hno reg h0]
    exact hno reg h0

/-- C7 witness: on `exReg7` (initialized, first cleanup module raising)
both modules' teardowns are attempted and the registry comes back empty
and uninitialized. -/
theorem C7_witness :
    (cleanup exReg7).2.1 = [⟨"m1", true⟩, ⟨"m2", false⟩]
    ∧ (cleanup exReg7).1.inited = false
    ∧ (cleanup exReg7).1._video_decoder_specs = [] := by
  have h := C7_cleanup.2.1 exReg7 rfl
  refine ⟨h.2, ?_, ?_⟩ <;> rw [h.1]

/-! ## Claim C8: spec accessors never fail -/

/-- C8: `get_encoder_specs` / `get_csc_specs` / `get_decoder_specs` return
the stored inner mapping for a present key and the empty mapping for an
absent one (they are total functions, never raising); in particular, after
`init`, `get_encoder_specs e` for `e` outside `get_encodings` is empty. -/
theorem C8_specs_accessors :
    (∀ (reg : VideoHelper) (e : String),
      (∀ m, aget reg._video_encoder_specs e = some m →
        get_encoder_specs reg e = m)
      ∧ (e ∉ get_encodings reg → get_encoder_specs reg e = []))
    ∧ (∀ (reg : VideoHelper) (s : String),
      (∀ m, aget reg._csc_encoder_specs s = some m → get_csc_specs reg s = m)
      ∧ (s ∉ get_csc_inputs reg → get_csc_specs reg s = []))
    ∧ (∀ (reg : VideoHelper) (e : String),
      (∀ m, aget reg._video_decoder_specs e = some m →
        get_decoder_specs reg e = m)
      ∧ (e ∉ get_decodings reg → get_decoder_specs reg e = []))
    ∧ (∀ (env : Env) (reg : VideoHelper) (e : String),
        e ∉ get_encodings (init env reg) →
          get_encoder_specs (init env reg) e = []) := by
  have enc : ∀ (reg : VideoHelper) (e : String),
      (∀ m, aget reg._video_encoder_specs e = some m →
        get_encoder_specs reg e = m)
      ∧ (e ∉ get_encodings reg → get_encoder_specs reg e = []) := by
    intro reg e
    constructor
    · intro m h
      unfold get_encoder_specs dgetD
      rw [h]
      rfl
    · intro h
      unfold get_encoder_specs dgetD
      rw [(aget_eq_none_iff _ _).mpr h]
      rfl
  refine ⟨enc, ?_, ?_, ?_⟩
  · intro reg s
    constructor
    · intro m h
      unfold get_csc_specs dgetD
      rw [h]
      rfl
    · intro h
      unfold get_csc_specs dgetD
      rw [(aget_eq_none_iff _ _).mpr h]
      rfl
  · intro reg e
    constructor
    · intro m h
      unfold get_decoder_specs dgetD
      rw [h]
      rfl
    · intro h
      unfold get_decoder_specs dgetD
      rw [(aget_eq_none_iff _ _).mpr h]
      rfl
  · intro env reg e h
    exact (enc (init env reg) e).2 h

/-- C8 witness: an encoding absent from the initialized `exReg1` yields the
empty mapping. -/
theorem C8_witness : get_encoder_specs (init exEnvEmpty exReg1) "h264" = [] :=
  C8_specs_accessors.2.2.2 exEnvEmpty exReg1 "h264" (by decide)

/-! ## String facts about the "-" exclusion marker -/

theorem dash_data (X : String) : ("-" ++ X).data = '-' :: X.data := by
  rw [String.data_append]
  rfl

theorem sdash_dash (X : String) : sdash ("-" ++ X) = true := by
  unfold sdash
  rw [dash_data]
  simp

theorem sEmpty_dash (X : String) : sEmpty ("-" ++ X) = false := by
  unfold sEmpty
  rw [dash_data]
  rfl

theorem sdrop1_dash (X : String) : sdrop1 ("-" ++ X) = X := by
  unfold sdrop1
  rw [dash_data]
  exact String.ext rfl

theorem inclistOf_all_dash (X : String) : inclistOf ["all", "-" ++ X] = ["all"] := by
  have h1 : (!sEmpty "all" && !sdash "all") = true := by decide
  have h2 : (!sEmpty ("-" ++ X) && !sdash ("-" ++ X)) = false := by
    rw [sEmpty_dash, sdash_dash]
    rfl
  simp [inclistOf, List.filter_cons, h1, h2]

theorem exclistOf_all_dash (X : String) : exclistOf ["all", "-" ++ X] = [X] := by
  have h1 : (!sEmpty "all" && sdash "all") = false := by decide
  have h2 : (!sEmpty ("-" ++ X) && sdash ("-" ++ X)) = true := by
    rw [sEmpty_dash, sdash_dash]
    rfl
  simp [exclistOf, List.filter_cons, h1, h2, sdrop1_dash]

/-! ## Claim C5: "all" expansion and exclusions in `set_modules` -/

/-- C5: in `filt`, the literal "all" expands to the whole catalog, and
exclusions apply after that expansion: `["all"]` yields the full catalog
and `["all", "-X"]` yields the full catalog minus `X`. -/
theorem C5_all_and_exclusions :
    (∀ all_list : List String, (filt ["all"] all_list).2 = all_list)
    ∧ (∀ (all_list : List String) (X : String), X ∈ all_list →
        (filt ["all", "-" ++ X] all_list).2
          = all_list.filter (fun y => y ≠ X)) := by
  constructor
  · intro all_list
    have hinc : inclistOf ["all"] = ["all"] := by decide
    have hexc : exclistOf ["all"] = [] := by decide
    unfold filt
    rw [hinc, hexc]
    simp
  · intro all_list X _hX
    unfold filt
    rw [inclistOf_all_dash, exclistOf_all_dash]
    simp only [List.mem_singleton, if_pos rfl]
    refine List.filter_congr ?_
    intro y _
    simp [List.mem_singleton]

/-- C5 witness: with catalog `["a", "b"]`, selecting `["all", "-a"]` yields
the catalog minus `"a"`. -/
theorem C5_witness :
    (filt ["all", "-" ++ "a"] ["a", "b"]).2
      = (["a", "b"] : List String).filter (fun y => y ≠ "a") :=
  C5_all_and_exclusions.2 ["a", "b"] "a" (by decide)

/-! ## Claim C4 (corrected): unknown names are warned but retained -/

/-- C4 counterexample: an unknown name ("bogus", not in the catalog
`["known"]`) *does* appear in the resulting enabled-module list, contrary
to the claim that it is dropped. -/
theorem C4_counterexample :
    "bogus" ∉ (["known"] : List String)
    ∧ "bogus" ∈ (filt ["bogus"] ["known"]).2 := by
  constructor
  · decide
  · decide

/-- C4 (amended): a selection name not present in the catalog is reported
in the warning list and does not make `set_modules` fail, but — unless it
is also explicitly excluded or "all" is selected — it is *retained* in the
resulting enabled-module list (it only drops out later when loading the
module fails). -/
theorem C4_unknown_names :
    (∀ (cat : Catalog) (reg : VideoHelper) (ve cm vd : List String),
        reg.inited = false → ∃ p, set_modules cat reg ve cm vd = Except.ok p)
    ∧ (∀ (inlist all_list : List String) (x : String),
        x ∈ inclistOf inlist → "all" ∉ inclistOf inlist → x ∉ all_list →
          x ∈ (filt inlist all_list).1
          ∧ (x ∉ exclistOf inlist → x ∈ (filt inlist all_list).2))
    ∧ (∀ (cat : Catalog) (reg : VideoHelper) (ve cm vd : List String)
        (p : VideoHelper × List String),
        reg.inited = false → set_modules cat reg ve cm vd = Except.ok p →
          p.1.video_encoders = (filt ve cat.all_video_encoder_options).2
          ∧ p.2 = (filt ve cat.all_video_encoder_options).1
                ++ (filt cm cat.all_csc_module_options).1
                ++ (filt vd cat.all_video_decoder_options).1) := by
  refine ⟨?_, ?_, ?_⟩
  · intro cat reg ve cm vd h
    unfold set_modules
    rw [h]
    exact ⟨_, rfl⟩
  · intro inlist all_list x hx hall hnot
    have hprop := (List.mem_filter.mp hx).2
    rw [Bool.and_eq_true] at hprop
    have hne : (!sEmpty x) = true := hprop.1
    unfold filt
    rw [if_neg hall]
    constructor
    · refine List.mem_filter.mpr ⟨List.mem_append_right _ hx, ?_⟩
      simp [hne, hnot]
    · intro hexc
      refine List.mem_filter.mpr ⟨hx, ?_⟩
      simp [hexc]
  · intro cat reg ve cm vd p h hp
    unfold set_modules at hp
    rw [h] at hp
    simp only [Bool.false_eq_true, if_false, Except.ok.injEq] at hp
    rw [← hp]
    exact ⟨rfl, rfl⟩

/-- C4 witness: the unknown name "bogus" (catalog `["known"]`) is reported
and retained. -/
theorem C4_witness :
    "bogus" ∈ (filt ["bogus"] ["known"]).1
    ∧ "bogus" ∈ (filt ["bogus"] ["known"]).2 := by
  have h := C4_unknown_names.2.1 ["bogus"] ["known"] "bogus"
    (by decide) (by decide) (by decide)
  exact ⟨h.1, h.2 (by decide)⟩

/-! ## Claims C9 and C10: `get_info` statuses and installed defaults -/

theorem aget_fold_aset {α : Type} (f : String → α) (xs : List String)
    (d : Dict α) (x : String) :
    aget (xs.foldl (fun d y => aset d y (f y)) d) x
      = if x ∈ xs then some (f x) else aget d x := by
  induction xs generalizing d with
  | nil => simp
  | cons y rest ih =>
    rw [List.foldl_cons, ih]
    by_cases hx : x ∈ rest
    · simp [hx]
    · by_cases hxy : x = y
      · subst hxy
        simp [hx, aget_aset_self]
      · simp [hx, hxy, aget_aset_ne _ _ _ _ hxy]

theorem get_info_video_encoder (cat : Catalog) (env : Env) (reg : VideoHelper) :
    (get_info cat env reg).video_encoder
      = cat.all_video_encoder_options.foldl
          (fun d y =>
            aset d y
              (modstatus y (get_DEFAULT_VIDEO_ENCODERS env cat) reg.video_encoders))
          [] := rfl

theorem get_info_csc_module (cat : Catalog) (env : Env) (reg : VideoHelper) :
    (get_info cat env reg).csc_module
      = cat.all_csc_module_options.foldl
          (fun d y =>
            aset d y
              (modstatus y (get_DEFAULT_CSC_MODULES env cat) reg.csc_modules))
          [] := rfl

/-- Shared helper: the status recorded by `get_info` for an
encoder-catalog module. -/
theorem get_info_venc_status (cat : Catalog) (env : Env) (reg : VideoHelper)
    (x : String) (hx : x ∈ cat.all_video_encoder_options) :
    aget (get_info cat env reg).video_encoder x
      = some (modstatus x (get_DEFAULT_VIDEO_ENCODERS env cat) reg.video_encoders) := by
  rw [get_info_video_encoder, aget_fold_aset, if_pos hx]

/-- C9 counterexample: a decoder-catalog module ("dex", even enabled) gets
no status anywhere in `get_info`'s report, contrary to the claim that
every catalog module — decoders included — receives one. -/
theorem C9_counterexample :
    "dex" ∈ exCat9.all_video_decoder_options
    ∧ "dex" ∈ exReg9.video_decoders
    ∧ hasStatusFor (get_info exCat9 exEnvEmpty exReg9) "dex" = false := by
  refine ⟨by decide, by decide, ?_⟩
  decide

/-- C9 (amended): `get_info` computes the three-way
active/disabled/not-found status only for encoder-catalog and csc-catalog
modules (both nested under the "encoding" section); each status is
"active" when enabled, "disabled" when present in the freshly recomputed
installed-defaults probe, else "not found".  Decoder-catalog modules get
no status. -/
theorem C9_modstatus :
    (∀ (cat : Catalog) (env : Env) (reg : VideoHelper) (x : String),
        x ∈ cat.all_video_encoder_options →
          aget (get_info cat env reg).video_encoder x
            = some (modstatus x (get_DEFAULT_VIDEO_ENCODERS env cat)
                reg.video_encoders))
    ∧ (∀ (cat : Catalog) (env : Env) (reg : VideoHelper) (x : String),
        x ∈ cat.all_csc_module_options →
          aget (get_info cat env reg).csc_module x
            = some (modstatus x (get_DEFAULT_CSC_MODULES env cat)
                reg.csc_modules)) := by
  constructor
  · intro cat env reg x hx
    exact get_info_venc_status cat env reg x hx
  · intro cat env reg x hx
    rw [get_info_csc_module, aget_fold_aset, if_pos hx]

/-- C9 witness: the recorded status of "x264" on a registry where it is not
enabled and every encoder module loads. -/
theorem C9_witness :
    aget (get_info exCat10 exEnvAllEnc exReg1).video_encoder "x264"
      = some (modstatus "x264" (get_DEFAULT_VIDEO_ENCODERS exEnvAllEnc exCat10)
          exReg1.video_encoders) :=
  C9_modstatus.1 exCat10 exEnvAllEnc exReg1 "x264" (by decide)

theorem gdve_loop_eq (env : Env) (l : List String) (acc : List String) :
    get_DEFAULT_VIDEO_ENCODERS_loop env acc l
      = acc
        ++ (l.find?
            (fun x => (env.get_codec_enc (get_encoder_module_name x)).isSome)).toList := by
  induction l generalizing acc with
  | nil => simp [get_DEFAULT_VIDEO_ENCODERS_loop]
  | cons x rest ih =>
    rw [get_DEFAULT_VIDEO_ENCODERS_loop]
    by_cases h : (env.get_codec_enc (get_encoder_module_name x)).isSome = true
    · rw [if_pos h]
      simp [List.find?_cons, h]
    · rw [if_neg h, ih]
      have h0 : (env.get_codec_enc (get_encoder_module_name x)).isSome = false := by
        simpa using h
      simp [List.find?_cons, h0]

theorem foldl_if_append_eq_filter (p : String → Bool) (l acc : List String) :
    l.foldl (fun a x => if p x then a ++ [x] else a) acc = acc ++ l.filter p := by
  induction l generalizing acc with
  | nil => simp
  | cons x rest ih =>
    rw [List.foldl_cons, List.filter_cons]
    by_cases h : p x
    · rw [if_pos h, if_pos h, ih]
      simp
    · rw [if_neg h, if_neg h, ih]

/-- C10: `get_DEFAULT_VIDEO_ENCODERS` stops at the first loadable encoder
(so it has at most one element), whereas the csc and decoder probes list
every loadable module; consequently, for an encoder-catalog module that is
not enabled, `get_info` reports "disabled" exactly when it is that first
loadable encoder. -/
theorem C10_default_lists :
    (∀ (env : Env) (cat : Catalog),
        get_DEFAULT_VIDEO_ENCODERS env cat
          = (cat.all_video_encoder_options.find?
              (fun x => (env.get_codec_enc (get_encoder_module_name x)).isSome)).toList)
    ∧ (∀ (env : Env) (cat : Catalog),
        (get_DEFAULT_VIDEO_ENCODERS env cat).length ≤ 1)
    ∧ (∀ (env : Env) (cat : Catalog),
        get_DEFAULT_CSC_MODULES env cat
          = cat.all_csc_module_options.filter
              (fun x => (env.get_codec_csc (get_csc_module_name x)).isSome))
    ∧ (∀ (env : Env) (cat : Catalog),
        get_DEFAULT_VIDEO_DECODERS env cat
          = cat.all_video_decoder_options.filter
              (fun x => (env.get_codec_dec (get_decoder_module_name x)).isSome))
    ∧ (∀ (cat : Catalog) (env : Env) (reg : VideoHelper) (x : String),
        x ∈ cat.all_video_encoder_options → x ∉ reg.video_encoders →
          (aget (get_info cat env reg).video_encoder x = some "disabled"
            ↔ cat.all_video_encoder_options.find?
                (fun y => (env.get_codec_enc (get_encoder_module_name y)).isSome)
                = some x)) := by
  have henc : ∀ (env : Env) (cat : Catalog),
      get_DEFAULT_VIDEO_ENCODERS env cat
        = (cat.all_video_encoder_options.find?
            (fun x => (env.get_codec_enc (get_encoder_module_name x)).isSome)).toList := by
    intro env cat
    have := gdve_loop_eq env cat.all_video_encoder_options []
    simpa [get_DEFAULT_VIDEO_ENCODERS] using this
  refine ⟨henc, ?_, ?_, ?_, ?_⟩
  · intro env cat
    rw [henc]
    cases cat.all_video_encoder_options.find?
        (fun x => (env.get_codec_enc (get_encoder_module_name x)).isSome) <;> simp
  · intro env cat
    have := foldl_if_append_eq_filter
      (fun x => (env.get_codec_csc (get_csc_module_name x)).isSome)
      cat.all_csc_module_options []
    simpa [get_DEFAULT_CSC_MODULES] using this
  · intro env cat
    have := foldl_if_append_eq_filter
      (fun x => (env.get_codec_dec (get_decoder_module_name x)).isSome)
      cat.all_video_decoder_options []
    simpa [get_DEFAULT_VIDEO_DECODERS] using this
  · intro cat env reg x hx hnact
    rw [get_info_venc_status cat env reg x hx, henc]
    unfold modstatus
    rw [if_neg hnact]
    cases hf : cat.all_video_encoder_options.find?
        (fun y => (env.get_codec_enc (get_encoder_module_name y)).isSome) with
    | none =>
      have ht : (none : Option String).toList = [] := rfl
      rw [ht, if_neg (List.not_mem_nil x)]
      constructor
      · intro h
        exact absurd (Option.some.inj h) (by decide)
      · intro h
        exact absurd h (by simp)
    | some y =>
      have ht : (some y).toList = [y] := rfl
      rw [ht]
      by_cases hxy : x = y
      · subst hxy
        rw [if_pos (List.mem_singleton.mpr rfl)]
        exact ⟨fun _ => rfl, fun _ => rfl⟩
      · rw [if_neg (fun hm => hxy (List.mem_singleton.mp hm))]
        constructor
        · intro h
          exact absurd (Option.some.inj h) (by decide)
        · intro h
          exact absurd (Option.some.inj h).symm hxy

/-- C10 witness: with both "x264" and "vpx" loadable, a disabled status for
"vpx" would require it to be the first loadable encoder. -/
theorem C10_witness :
    aget (get_info exCat10 exEnvAllEnc exReg1).video_encoder "vpx"
        = some "disabled"
      ↔ exCat10.all_video_encoder_options.find?
          (fun y => (exEnvAllEnc.get_codec_enc (get_encoder_module_name y)).isSome)
          = some "vpx" :=
  C10_default_lists.2.2.2.2 exCat10 exEnvAllEnc exReg1 "vpx" (by decide) (by decide)

/-! ## Deduplication lemmas -/

theorem mem_foldl_dedupAppend (xs l : List String) (x : String) :
    x ∈ xs.foldl dedupAppend l ↔ x ∈ l ∨ x ∈ xs := by
  induction xs generalizing l with
  | nil => simp
  | cons y rest ih =>
    rw [List.foldl_cons, ih]
    unfold dedupAppend
    by_cases hy : y ∈ l
    · rw [if_pos hy]
      constructor
      · rintro (h | h)
        · exact Or.inl h
        · exact Or.inr (List.mem_cons_of_mem _ h)
      · rintro (h | h)
        · exact Or.inl h
        · rcases List.mem_cons.mp h with h1 | h2
          · exact Or.inl (h1 ▸ hy)
          · exact Or.inr h2
    · rw [if_neg hy]
      simp only [List.mem_append, List.mem_singleton, List.mem_cons]
      tauto

theorem mem_dedupFirst (xs : List String) (x : String) :
    x ∈ dedupFirst xs ↔ x ∈ xs := by
  unfold dedupFirst
  rw [mem_foldl_dedupAppend]
  simp

/-! ## Claim C2: resolve-by-RGB -/

theorem extended_fold_mem (rgb : List String) (tbl : Dict (Dict (List Spec)))
    (acc : List String) (x : String) :
    x ∈ tbl.foldl
        (fun acc p =>
          if p.2.any (fun q => decide (q.1 ∈ rgb) && !q.2.isEmpty) then
            acc ++ [p.1]
          else acc)
        acc
      ↔ x ∈ acc
        ∨ ∃ inner, (x, inner) ∈ tbl ∧ ∃ q ∈ inner, q.1 ∈ rgb ∧ q.2 ≠ [] := by
  induction tbl generalizing acc with
  | nil => simp
  | cons p rest ih =>
    rw [List.foldl_cons]
    by_cases h : p.2.any (fun q => decide (q.1 ∈ rgb) && !q.2.isEmpty) = true
    · rw [if_pos h, ih]
      constructor
      · rintro (hmem | ⟨inner, hin, hq⟩)
        · rcases List.mem_append.mp hmem with h1 | h2
          · exact Or.inl h1
          · have hx : x = p.1 := List.mem_singleton.mp h2
            rcases List.any_eq_true.mp h with ⟨q, hqmem, hcond⟩
            rw [Bool.and_eq_true] at hcond
            refine Or.inr ⟨p.2, ?_, q, hqmem, of_decide_eq_true hcond.1, ?_⟩
            · rw [hx]
              exact List.mem_cons_self _ _
            · intro hnil
              rw [hnil] at hcond
              exact absurd hcond.2 (by decide)
        · exact Or.inr ⟨inner, List.mem_cons_of_mem _ hin, hq⟩
      · rintro (hmem | ⟨inner, hin, hq⟩)
        · exact Or.inl (List.mem_append_left _ hmem)
        · rcases List.mem_cons.mp hin with h1 | h2
          · have hx : x = p.1 := congrArg Prod.fst h1
            exact Or.inl
              (List.mem_append_right _ (List.mem_singleton.mpr hx))
          · exact Or.inr ⟨inner, h2, hq⟩
    · rw [if_neg h, ih]
      constructor
      · rintro (hmem | ⟨inner, hin, hq⟩)
        · exact Or.inl hmem
        · exact Or.inr ⟨inner, List.mem_cons_of_mem _ hin, hq⟩
      · rintro (hmem | ⟨inner, hin, hq⟩)
        · exact Or.inl hmem
        · rcases List.mem_cons.mp hin with h1 | h2
          · exfalso
            rcases hq with ⟨q, hqmem, hq1, hq2⟩
            have hinner : inner = p.2 := congrArg Prod.snd h1
            apply h
            refine List.any_eq_true.mpr ⟨q, hinner ▸ hqmem, ?_⟩
            rw [Bool.and_eq_true]
            refine ⟨decide_eq_true hq1, ?_⟩
            simp [List.isEmpty_iff, hq2]
          · exact Or.inr ⟨inner, h2, hq⟩

/-- `get_server_full_csc_modes` only tests membership of the peer set, so
membership-equivalent peer lists give identical results. -/
theorem gsfcm_modes_congr (reg : VideoHelper) (l₁ l₂ : List String)
    (h : ∀ x, x ∈ l₁ ↔ x ∈ l₂) :
    get_server_full_csc_modes reg l₁ = get_server_full_csc_modes reg l₂ := by
  have hpd : processDecoder l₁ = processDecoder l₂ := by
    funext e cs acc de
    unfold processDecoder
    exact if_congr (h _) rfl rfl
  have hpc : processColorspace l₁ = processColorspace l₂ := by
    funext e acc p
    unfold processColorspace
    rw [hpd]
  unfold get_server_full_csc_modes
  rw [hpc]

/-- C2: `get_server_full_csc_modes_for_rgb` extends the peer set with every
csc-table input colorspace having a non-empty spec list into one of the
given RGB formats, and its result is exactly `get_server_full_csc_modes`
on the deduplicated, sorted extension; in particular a csc spec
"YUV444P" → "RGB" puts "YUV444P" into the extended set for `{"RGB"}`. -/
theorem C2_resolve_by_rgb :
    (∀ (reg : VideoHelper) (rgb : List String) (x : String),
        x ∈ extended_csc_modes reg rgb
          ↔ x ∈ rgb
            ∨ ∃ inner, (x, inner) ∈ reg._csc_encoder_specs
                ∧ ∃ q ∈ inner, q.1 ∈ rgb ∧ q.2 ≠ [])
    ∧ (∀ (reg : VideoHelper) (rgb : List String),
        get_server_full_csc_modes_for_rgb reg rgb
          = get_server_full_csc_modes reg
              (dedupFirst (sortStrs (extended_csc_modes reg rgb))))
    ∧ "YUV444P" ∈ extended_csc_modes exReg2 ["RGB"] := by
  refine ⟨?_, ?_, by decide⟩
  · intro reg rgb x
    exact extended_fold_mem rgb reg._csc_encoder_specs rgb x
  · intro reg rgb
    unfold get_server_full_csc_modes_for_rgb
    exact gsfcm_modes_congr reg _ _
      (fun x => (mem_dedupFirst (sortStrs (extended_csc_modes reg rgb)) x).symm)

/-! ## Claim C1: resolve-by-colorspace -/

theorem pd_fold_aget_ne (modes : List String) (e cs : String)
    (decs : List DecoderEntry) (acc : Dict (List String)) (k : String)
    (hk : k ≠ e) :
    aget (decs.foldl (processDecoder modes e cs) acc) k = aget acc k := by
  induction decs generalizing acc with
  | nil => rfl
  | cons de rest ih =>
    rw [List.foldl_cons, ih]
    unfold processDecoder
    by_cases h1 : de.2.get_output_colorspace e cs ∈ modes
    · rw [if_pos h1]
      by_cases h2 : cs ∈ dgetD acc e []
      · rw [if_pos h2]
      · rw [if_neg h2, aget_aset_ne _ _ _ _ hk]
    · rw [if_neg h1]

theorem pd_fold_aget_self (modes : List String) (e cs : String)
    (decs : List DecoderEntry) (acc : Dict (List String)) :
    aget (decs.foldl (processDecoder modes e cs) acc) e
      = if (∃ de ∈ decs, de.2.get_output_colorspace e cs ∈ modes)
            ∧ cs ∉ dgetD acc e [] then
          some (dgetD acc e [] ++ [cs])
        else aget acc e := by
  induction decs generalizing acc with
  | nil => simp
  | cons de rest ih =>
    rw [List.foldl_cons, ih]
    unfold processDecoder
    by_cases h1 : de.2.get_output_colorspace e cs ∈ modes
    · rw [if_pos h1]
      by_cases h2 : cs ∈ dgetD acc e []
      · rw [if_pos h2, if_neg, if_neg]
        · rintro ⟨_, hno⟩
          exact hno h2
        · rintro ⟨_, hno⟩
          exact hno h2
      · rw [if_neg h2]
        have hg : dgetD (aset acc e (dgetD acc e [] ++ [cs])) e []
            = dgetD acc e [] ++ [cs] := by
          unfold dgetD
          rw [aget_aset_self]
          rfl
        rw [hg, if_neg, if_pos, aget_aset_self]
        · exact ⟨⟨de, List.mem_cons_self _ _, h1⟩, h2⟩
        · rintro ⟨_, hno⟩
          exact hno (List.mem_append_right _ (List.mem_singleton.mpr rfl))
    · rw [if_neg h1]
      refine if_congr (and_congr_left' ?_) rfl rfl
      constructor
      · rintro ⟨d, hd, hP⟩
        exact ⟨d, List.mem_cons_of_mem _ hd, hP⟩
      · rintro ⟨d, hd, hP⟩
        rcases List.mem_cons.mp hd with h | h
        · exact absurd (h ▸ hP) h1
        · exact ⟨d, h, hP⟩

theorem pc_fold_aget_ne (modes : List String) (e : String)
    (items : List (String × List DecoderEntry)) (acc : Dict (List String))
    (k : String) (hk : k ≠ e) :
    aget (items.foldl (processColorspace modes e) acc) k = aget acc k := by
  induction items generalizing acc with
  | nil => rfl
  | cons p rest ih =>
    rw [List.foldl_cons, ih]
    unfold processColorspace
    exact pd_fold_aget_ne modes e p.1 p.2 acc k hk

theorem decoderViable_iff (modes : List String) (e : String)
    (p : String × List DecoderEntry) :
    decoderViable modes e p = true
      ↔ ∃ de ∈ p.2, de.2.get_output_colorspace e p.1 ∈ modes := by
  unfold decoderViable
  rw [List.any_eq_true]
  constructor
  · rintro ⟨de, hd, hP⟩
    exact ⟨de, hd, of_decide_eq_true hP⟩
  · rintro ⟨de, hd, hP⟩
    exact ⟨de, hd, decide_eq_true hP⟩

theorem pc_fold_aget_self (modes : List String) (e : String)
    (items : List (String × List DecoderEntry)) (acc : Dict (List String)) :
    aget (items.foldl (processColorspace modes e) acc) e
      = items.foldl (gstep modes e) (aget acc e) := by
  induction items generalizing acc with
  | nil => rfl
  | cons p rest ih =>
    rw [List.foldl_cons, List.foldl_cons, ih]
    congr 1
    unfold processColorspace gstep
    rw [pd_fold_aget_self]
    refine if_congr (and_congr_left' ?_) rfl rfl
    exact (decoderViable_iff modes e p).symm

theorem gsfcm_outer_aget_notin (modes : List String)
    (table : Dict (Dict (List DecoderEntry))) (acc : Dict (List String))
    (k : String) (hk : k ∉ table.map Prod.fst) :
    aget (table.foldl
        (fun acc q => (sortPairs q.2).foldl (processColorspace modes q.1) acc)
        acc) k
      = aget acc k := by
  induction table generalizing acc with
  | nil => rfl
  | cons q rest ih =>
    simp only [List.map_cons, List.mem_cons] at hk
    push_neg at hk
    rw [List.foldl_cons, ih _ hk.2]
    exact pc_fold_aget_ne modes q.1 _ acc k hk.1

theorem gsfcm_outer_aget_mem (modes : List String)
    (table : Dict (Dict (List DecoderEntry))) (acc : Dict (List String))
    (e : String) (specs : Dict (List DecoderEntry))
    (hnd : (table.map Prod.fst).Nodup) (hmem : (e, specs) ∈ table)
    (hacc : aget acc e = none) :
    aget (table.foldl
        (fun acc q => (sortPairs q.2).foldl (processColorspace modes q.1) acc)
        acc) e
      = (sortPairs specs).foldl (gstep modes e) none := by
  induction table generalizing acc with
  | nil => simp at hmem
  | cons q rest ih =>
    simp only [List.map_cons, List.nodup_cons] at hnd
    rw [List.foldl_cons]
    rcases List.mem_cons.mp hmem with h1 | h2
    · have he : q.1 = e := (congrArg Prod.fst h1).symm
      have hs : q.2 = specs := (congrArg Prod.snd h1).symm
      have hrest : e ∉ rest.map Prod.fst := he ▸ hnd.1
      rw [gsfcm_outer_aget_notin modes rest _ e hrest, he, hs,
        pc_fold_aget_self, hacc]
    · have hq : q.1 ≠ e := by
        intro h
        have hkey : e ∈ rest.map Prod.fst := by
          have : (e, specs).1 ∈ rest.map Prod.fst := List.mem_map_of_mem Prod.fst h2
          exact this
        exact hnd.1 (h ▸ hkey)
      refine ih _ hnd.2 h2 ?_
      rw [pc_fold_aget_ne modes q.1 _ acc e (fun hh => hq hh.symm), hacc]

theorem gstep_some (modes : List String) (e : String) (l : List String)
    (p : String × List DecoderEntry) :
    gstep modes e (some l) p = some (blstep modes e l p) := by
  unfold gstep blstep
  by_cases h : decoderViable modes e p = true ∧ p.1 ∉ l
  · have h' : decoderViable modes e p = true ∧ p.1 ∉ (some l).getD [] :=
      ⟨h.1, h.2⟩
    rw [if_pos h', if_pos h]
    rfl
  · have h' : ¬(decoderViable modes e p = true ∧ p.1 ∉ (some l).getD []) :=
      fun hc => h ⟨hc.1, hc.2⟩
    rw [if_neg h', if_neg h]

theorem gstep_fold_some (modes : List String) (e : String)
    (items : List (String × List DecoderEntry)) (l : List String) :
    items.foldl (gstep modes e) (some l)
      = some (items.foldl (blstep modes e) l) := by
  induction items generalizing l with
  | nil => rfl
  | cons p rest ih =>
    rw [List.foldl_cons, List.foldl_cons, gstep_some, ih]

theorem blstep_fold_ne_nil (modes : List String) (e : String)
    (items : List (String × List DecoderEntry)) (cur : List String)
    (h : cur ≠ []) :
    items.foldl (blstep modes e) cur ≠ [] := by
  induction items generalizing cur with
  | nil => exact h
  | cons p rest ih =>
    rw [List.foldl_cons]
    apply ih
    unfold blstep
    by_cases hc : decoderViable modes e p = true ∧ p.1 ∉ cur
    · rw [if_pos hc]
      simp
    · rw [if_neg hc]
      exact h

theorem gstep_fold_none (modes : List String) (e : String)
    (items : List (String × List DecoderEntry)) :
    items.foldl (gstep modes e) none
      = listToOpt (items.foldl (blstep modes e) []) := by
  induction items with
  | nil => rfl
  | cons p rest ih =>
    rw [List.foldl_cons, List.foldl_cons]
    by_cases hv : decoderViable modes e p = true
    · have hg : gstep modes e none p = some [p.1] := by
        unfold gstep
        rw [if_pos ⟨hv, by simp⟩]
        rfl
      have hb : blstep modes e [] p = [p.1] := by
        unfold blstep
        rw [if_pos ⟨hv, by simp⟩]
        rfl
      rw [hg, hb, gstep_fold_some]
      unfold listToOpt
      rw [if_neg (blstep_fold_ne_nil modes e rest [p.1] (by simp))]
    · have hg : gstep modes e none p = none := by
        unfold gstep
        rw [if_neg (fun hc => hv hc.1)]
      have hb : blstep modes e [] p = [] := by
        unfold blstep
        rw [if_neg (fun hc => hv hc.1)]
      rw [hg, hb, ih]

theorem blstep_fold_eq_dedup (modes : List String) (e : String)
    (items : List (String × List DecoderEntry)) (cur : List String) :
    items.foldl (blstep modes e) cur
      = ((items.filter (decoderViable modes e)).map Prod.fst).foldl
          dedupAppend cur := by
  induction items generalizing cur with
  | nil => rfl
  | cons p rest ih =>
    rw [List.foldl_cons, List.filter_cons]
    by_cases hv : decoderViable modes e p = true
    · rw [if_pos hv, List.map_cons, List.foldl_cons, ih]
      congr 1
      unfold blstep dedupAppend
      by_cases hc : p.1 ∈ cur
      · rw [if_neg (fun hh => hh.2 hc), if_pos hc]
      · rw [if_pos ⟨hv, hc⟩, if_neg hc]
    · rw [if_neg hv, ih]
      congr 1
      unfold blstep
      rw [if_neg (fun hh => hv hh.1)]

theorem dedupAppend_fold_ne_nil (xs l : List String) (h : l ≠ []) :
    xs.foldl dedupAppend l ≠ [] := by
  induction xs generalizing l with
  | nil => exact h
  | cons y rest ih =>
    rw [List.foldl_cons]
    apply ih
    unfold dedupAppend
    by_cases hy : y ∈ l
    · rw [if_pos hy]
      exact h
    · rw [if_neg hy]
      simp

theorem dedupFirst_eq_nil_iff (xs : List String) :
    dedupFirst xs = [] ↔ xs = [] := by
  cases xs with
  | nil => simp [dedupFirst]
  | cons y rest =>
    constructor
    · intro h
      exfalso
      have hstep : dedupAppend [] y = [y] := by
        unfold dedupAppend
        simp
      have : dedupFirst (y :: rest) = rest.foldl dedupAppend [y] := by
        unfold dedupFirst
        rw [List.foldl_cons, hstep]
      rw [this] at h
      exact dedupAppend_fold_ne_nil rest [y] (by simp) h
    · intro h
      exact absurd h (by simp)

theorem listToOpt_eq_none_iff (l : List String) :
    listToOpt l = none ↔ l = [] := by
  unfold listToOpt
  by_cases h : l = []
  · simp [h]
  · simp [h]

/-- The value `get_server_full_csc_modes` records under any encoding, for a
decoder table with distinct encodings: `none` exactly when no viable
colorspace exists, otherwise the deduplicated list of viable input
colorspaces in sorted-traversal order. -/
theorem gsfcm_aget (reg : VideoHelper) (modes : List String) (e : String)
    (hnd : (reg._video_decoder_specs.map Prod.fst).Nodup) :
    aget (get_server_full_csc_modes reg modes) e
      = listToOpt (viableColorspaces reg modes e) := by
  unfold get_server_full_csc_modes viableColorspaces
  by_cases hm : e ∈ reg._video_decoder_specs.map Prod.fst
  · have hsome := aget_isSome_of_mem_keys _ _ hm
    cases hs : aget reg._video_decoder_specs e with
    | none =>
      rw [hs] at hsome
      simp at hsome
    | some specs =>
      have hmem := aget_mem _ _ _ hs
      have hd : dgetD reg._video_decoder_specs e [] = specs := by
        unfold dgetD
        rw [hs]
        rfl
      rw [gsfcm_outer_aget_mem modes _ [] e specs hnd hmem rfl, hd,
        gstep_fold_none, blstep_fold_eq_dedup]
      rfl
  · have hd : dgetD reg._video_decoder_specs e [] = [] := by
      unfold dgetD
      rw [(aget_eq_none_iff _ _).mpr hm]
      rfl
    rw [gsfcm_outer_aget_notin modes _ [] e hm, hd]
    rfl

theorem mem_sortPairs {β : Type} (l : List (String × β)) (p : String × β) :
    p ∈ sortPairs l ↔ p ∈ l := by
  unfold sortPairs
  exact List.mem_insertionSort pairLe

/-- Key membership in the result of `get_server_full_csc_modes`. -/
theorem gsfcm_mem_keys (reg : VideoHelper) (modes : List String) (e : String)
    (hnd : (reg._video_decoder_specs.map Prod.fst).Nodup) :
    e ∈ dkeys (get_server_full_csc_modes reg modes)
      ↔ ∃ cs entries,
          (cs, entries) ∈ dgetD reg._video_decoder_specs e []
          ∧ ∃ de ∈ entries, de.2.get_output_colorspace e cs ∈ modes := by
  have h1 : e ∈ dkeys (get_server_full_csc_modes reg modes)
      ↔ ¬ aget (get_server_full_csc_modes reg modes) e = none := by
    rw [aget_eq_none_iff]
    unfold dkeys
    exact (not_not).symm
  rw [h1, gsfcm_aget reg modes e hnd, listToOpt_eq_none_iff]
  unfold viableColorspaces
  rw [dedupFirst_eq_nil_iff]
  constructor
  · intro hne
    have hfne : (sortPairs (dgetD reg._video_decoder_specs e [])).filter
        (decoderViable modes e) ≠ [] := by
      intro hf
      apply hne
      rw [hf]
      rfl
    obtain ⟨p, hp⟩ := List.exists_mem_of_ne_nil _ hfne
    have hp2 := List.mem_filter.mp hp
    have hpl : p ∈ dgetD reg._video_decoder_specs e [] :=
      (mem_sortPairs _ p).mp hp2.1
    obtain ⟨de, hde, hout⟩ := (decoderViable_iff modes e p).mp hp2.2
    exact ⟨p.1, p.2, by simpa using hpl, de, hde, hout⟩
  · rintro ⟨cs, entries, hmem, de, hde, hout⟩
    intro hX
    have hv : decoderViable modes e (cs, entries) = true :=
      (decoderViable_iff modes e (cs, entries)).mpr ⟨de, hde, hout⟩
    have hsorted : (cs, entries) ∈ sortPairs (dgetD reg._video_decoder_specs e []) :=
      (mem_sortPairs _ _).mpr hmem
    have hfil : (cs, entries)
        ∈ (sortPairs (dgetD reg._video_decoder_specs e [])).filter
            (decoderViable modes e) :=
      List.mem_filter.mpr ⟨hsorted, hv⟩
    have hcs : cs ∈ ((sortPairs (dgetD reg._video_decoder_specs e [])).filter
        (decoderViable modes e)).map Prod.fst :=
      List.mem_map_of_mem Prod.fst hfil
    rw [hX] at hcs
    exact absurd hcs (List.not_mem_nil cs)

/-- C1: for a decoder table with distinct encodings,
`get_server_full_csc_modes` contains an encoding exactly when some
(inputColorspace, decoderEntry) pair under it has an actual output
colorspace (as queried from the decoder module for that pair) in the peer
set; the recorded value is the list of such input colorspaces in the
traversal's (key-sorted) first-seen order, deduplicated, and encodings
with no viable colorspace are absent.  On the spec's worked example the
query with `["RGB"]` returns `{"V1": ["YUV420P"]}` and with `["RGB2"]`
returns `{}`. -/
theorem C1_resolve_by_colorspace :
    (∀ (reg : VideoHelper) (modes : List String) (e : String),
        (reg._video_decoder_specs.map Prod.fst).Nodup →
          aget (get_server_full_csc_modes reg modes) e
              = listToOpt (viableColorspaces reg modes e)
          ∧ (e ∈ dkeys (get_server_full_csc_modes reg modes)
              ↔ ∃ cs entries,
                  (cs, entries) ∈ dgetD reg._video_decoder_specs e []
                  ∧ ∃ de ∈ entries, de.2.get_output_colorspace e cs ∈ modes))
    ∧ get_server_full_csc_modes exReg1 ["RGB"] = [("V1", ["YUV420P"])]
    ∧ get_server_full_csc_modes exReg1 ["RGB2"] = [] := by
  refine ⟨fun reg modes e hnd =>
    ⟨gsfcm_aget reg modes e hnd, gsfcm_mem_keys reg modes e hnd⟩, ?_, ?_⟩
  · decide
  · decide

/-- C1 witness: the characterization instantiated on the worked example. -/
theorem C1_witness :
    aget (get_server_full_csc_modes exReg1 ["RGB"]) "V1"
        = listToOpt (viableColorspaces exReg1 ["RGB"] "V1")
    ∧ ("V1" ∈ dkeys (get_server_full_csc_modes exReg1 ["RGB"])
        ↔ ∃ cs entries,
            (cs, entries) ∈ dgetD exReg1._video_decoder_specs "V1" []
            ∧ ∃ de ∈ entries, de.2.get_output_colorspace "V1" cs ∈ ["RGB"]) :=
  C1_resolve_by_colorspace.1 exReg1 ["RGB"] "V1" (by decide)

/-! ## Claim C3: `clone` -/

/-! ### The pure replay: `deepish_clone_dict` rebuilds the same tables -/

theorem dappend_head_ne {α : Type} (p : String × List α) (m : Dict (List α))
    (c : String) (v : α) (h : p.1 ≠ c) :
    dappend (p :: m) c v = p :: dappend m c v := by
  unfold dappend
  rw [aget_cons_ne _ _ _ h]
  cases hg : aget m c with
  | some l => simp [hg, aset_cons_ne _ _ _ _ h]
  | none => simp [hg]

theorem dappend_run_pairs {α : Type} (l : List α) (m : Dict (List α))
    (c : String) (h : l ≠ []) :
    (l.map (fun v => (c, v))).foldl (fun mm t => dappend mm t.1 t.2) m
      = aset m c (dgetD m c [] ++ l) := by
  induction l generalizing m with
  | nil => exact absurd rfl h
  | cons v rest ih =>
    by_cases hr : rest = []
    · subst hr
      simp only [List.map_cons, List.map_nil, List.foldl_cons, List.foldl_nil]
      rw [dappend_eq_aset]
    · simp only [List.map_cons, List.foldl_cons]
      rw [ih _ hr, dappend_eq_aset]
      have hg : dgetD (aset m c (dgetD m c [] ++ [v])) c []
          = dgetD m c [] ++ [v] := by
        unfold dgetD
        rw [aget_aset_self]
        rfl
      rw [hg, aset_aset, List.append_assoc]
      rfl

theorem dappend_fold_cons_ne {α : Type} (ts : List (String × α))
    (p : String × List α) (m : Dict (List α))
    (h : ∀ t ∈ ts, t.1 ≠ p.1) :
    ts.foldl (fun mm t => dappend mm t.1 t.2) (p :: m)
      = p :: ts.foldl (fun mm t => dappend mm t.1 t.2) m := by
  induction ts generalizing m with
  | nil => rfl
  | cons t rest ih =>
    simp only [List.foldl_cons]
    rw [dappend_head_ne p m t.1 t.2 (Ne.symm (h t (List.mem_cons_self _ _)))]
    exact ih _ (fun t' ht' => h t' (List.mem_cons_of_mem _ ht'))

theorem innerPairs_cons {α : Type} (q : String × List α) (m : Dict (List α)) :
    innerPairs (q :: m) = q.2.map (fun v => (q.1, v)) ++ innerPairs m := by
  unfold innerPairs
  rw [List.flatMap_cons]

theorem innerPairs_key {α : Type} (m : Dict (List α)) (t : String × α)
    (h : t ∈ innerPairs m) : t.1 ∈ m.map Prod.fst := by
  unfold innerPairs at h
  rcases List.mem_flatMap.mp h with ⟨q, hq, ht⟩
  rcases List.mem_map.mp ht with ⟨v, hv, rfl⟩
  exact List.mem_map_of_mem Prod.fst hq

theorem innerPairs_replay {α : Type} :
    ∀ m : Dict (List α),
      (m.map Prod.fst).Nodup → (∀ q ∈ m, q.2 ≠ []) →
      (innerPairs m).foldl (fun mm t => dappend mm t.1 t.2) [] = m := by
  intro m
  induction m with
  | nil => intro _ _; rfl
  | cons q mrest ih =>
    intro hnd hne
    simp only [List.map_cons, List.nodup_cons] at hnd
    rw [innerPairs_cons, List.foldl_append]
    have hq2 : q.2 ≠ [] := hne q (List.mem_cons_self _ _)
    have hrun : (q.2.map (fun v => (q.1, v))).foldl
        (fun mm t => dappend mm t.1 t.2) ([] : Dict (List α))
        = [(q.1, q.2)] := by
      rw [dappend_run_pairs q.2 [] q.1 hq2]
      rfl
    rw [hrun]
    have hkeys : ∀ t ∈ innerPairs mrest, t.1 ≠ (q.1, q.2).1 := by
      intro t ht hh
      exact hnd.1 (hh ▸ innerPairs_key mrest t ht)
    rw [dappend_fold_cons_ne _ _ _ hkeys,
      ih hnd.2 (fun q' hq' => hne q' (List.mem_cons_of_mem _ hq'))]

theorem nested_add_cons_ne {α : Type} (p : String × Dict (List α))
    (D : Dict (Dict (List α))) (e c : String) (v : α) (h : p.1 ≠ e) :
    nested_add (p :: D) e c v = p :: nested_add D e c v := by
  unfold nested_add dgetD
  rw [aget_cons_ne _ _ _ h, aset_cons_ne _ _ _ _ h]

theorem nested_add_fold_cons_ne {α : Type} (ts : List (String × String × α))
    (p : String × Dict (List α)) (D : Dict (Dict (List α)))
    (h : ∀ t ∈ ts, t.1 ≠ p.1) :
    ts.foldl (fun o t => nested_add o t.1 t.2.1 t.2.2) (p :: D)
      = p :: ts.foldl (fun o t => nested_add o t.1 t.2.1 t.2.2) D := by
  induction ts generalizing D with
  | nil => rfl
  | cons t rest ih =>
    simp only [List.foldl_cons]
    rw [nested_add_cons_ne p D t.1 t.2.1 t.2.2
      (Ne.symm (h t (List.mem_cons_self _ _)))]
    exact ih _ (fun t' ht' => h t' (List.mem_cons_of_mem _ ht'))

theorem nested_add_run {α : Type} (ts : List (String × α)) (e : String)
    (D : Dict (Dict (List α))) (h : ts ≠ []) :
    (ts.map (fun t => (e, t.1, t.2))).foldl
        (fun o t => nested_add o t.1 t.2.1 t.2.2) D
      = aset D e (ts.foldl (fun mm t => dappend mm t.1 t.2) (dgetD D e [])) := by
  induction ts generalizing D with
  | nil => exact absurd rfl h
  | cons t rest ih =>
    by_cases hr : rest = []
    · subst hr
      simp only [List.map_cons, List.map_nil, List.foldl_cons, List.foldl_nil]
      rfl
    · simp only [List.map_cons, List.foldl_cons]
      rw [ih _ hr]
      have hg : dgetD (nested_add D e t.1 t.2) e []
          = dappend (dgetD D e []) t.1 t.2 := by
        unfold nested_add dgetD
        rw [aget_aset_self]
        rfl
      rw [hg]
      unfold nested_add
      rw [aset_aset]

theorem pureTriples_cons {α : Type} (p : String × Dict (List α))
    (d : Dict (Dict (List α))) :
    pureTriples (p :: d)
      = (innerPairs p.2).map (fun t => (p.1, t.1, t.2)) ++ pureTriples d := by
  unfold pureTriples innerPairs
  rw [List.flatMap_cons]
  congr 1
  induction p.2 with
  | nil => rfl
  | cons q mrest ih =>
    rw [List.flatMap_cons, List.flatMap_cons, List.map_append, ih, List.map_map]
    rfl

theorem pureTriples_key {α : Type} (d : Dict (Dict (List α)))
    (t : String × String × α) (h : t ∈ pureTriples d) :
    t.1 ∈ d.map Prod.fst := by
  unfold pureTriples at h
  rcases List.mem_flatMap.mp h with ⟨p, hp, ht⟩
  rcases List.mem_flatMap.mp ht with ⟨q, hq, ht2⟩
  rcases List.mem_map.mp ht2 with ⟨v, hv, rfl⟩
  exact List.mem_map_of_mem Prod.fst hp

theorem deepish_replay {α : Type} :
    ∀ d : Dict (Dict (List α)),
      (d.map Prod.fst).Nodup →
      (∀ p ∈ d, (p.2.map Prod.fst).Nodup) →
      (∀ p ∈ d, p.2 ≠ []) →
      (∀ p ∈ d, ∀ q ∈ p.2, q.2 ≠ []) →
      (pureTriples d).foldl (fun o t => nested_add o t.1 t.2.1 t.2.2) [] = d := by
  intro d
  induction d with
  | nil => intro _ _ _ _; rfl
  | cons p rest ih =>
    intro h1 h2 h3 h4
    simp only [List.map_cons, List.nodup_cons] at h1
    rw [pureTriples_cons, List.foldl_append]
    have hipne : innerPairs p.2 ≠ [] := by
      cases hm : p.2 with
      | nil => exact absurd hm (h3 p (List.mem_cons_self _ _))
      | cons q mrest =>
        rw [innerPairs_cons]
        intro happ
        rcases List.append_eq_nil.mp happ with ⟨hqm, _⟩
        have hq2 : q.2 ≠ [] :=
          h4 p (List.mem_cons_self _ _) q (hm ▸ List.mem_cons_self _ _)
        exact hq2 (List.map_eq_nil_iff.mp hqm)
    have hfirst : ((innerPairs p.2).map (fun t => (p.1, t.1, t.2))).foldl
        (fun o t => nested_add o t.1 t.2.1 t.2.2) [] = [(p.1, p.2)] := by
      rw [nested_add_run _ _ _ hipne]
      have hz : dgetD ([] : Dict (Dict (List α))) p.1 [] = [] := rfl
      rw [hz, innerPairs_replay p.2 (h2 p (List.mem_cons_self _ _))
        (fun q hq => h4 p (List.mem_cons_self _ _) q hq)]
      rfl
    rw [hfirst]
    have hkeys : ∀ t ∈ pureTriples rest, t.1 ≠ (p.1, p.2).1 := by
      intro t ht hh
      exact h1.1 (hh ▸ pureTriples_key rest t ht)
    rw [nested_add_fold_cons_ne _ _ _ hkeys,
      ih h1.2 (fun p' hp' => h2 p' (List.mem_cons_of_mem _ hp'))
        (fun p' hp' => h3 p' (List.mem_cons_of_mem _ hp'))
        (fun p' hp' => h4 p' (List.mem_cons_of_mem _ hp'))]

/-- For well-formed tables (distinct keys at both levels, no empty inner
dicts or spec lists — which is what registry `add_*` operations build),
the clone walk rebuilds exactly the source table, holding the same Spec
values. -/
theorem deepish_clone_dict_id {α : Type} (d : Dict (Dict (List α)))
    (h1 : (d.map Prod.fst).Nodup)
    (h2 : ∀ p ∈ d, (p.2.map Prod.fst).Nodup)
    (h3 : ∀ p ∈ d, p.2 ≠ [])
    (h4 : ∀ p ∈ d, ∀ q ∈ p.2, q.2 ≠ []) :
    deepish_clone_dict d = d := by
  unfold deepish_clone_dict
  exact deepish_replay d h1 h2 h3 h4

/-! ### Heap independence of the cloned tables -/

theorem hAppendList_outers {α : Type} (st : Store α) (lr : Nat) (v : α) :
    (hAppendList st lr v).outers = st.outers := rfl

theorem hSetdefaultInner_outers {α : Type} (st : Store α) (ir : Nat)
    (c : String) : (hSetdefaultInner st ir c).1.outers = st.outers := by
  unfold hSetdefaultInner
  cases aget ((aget st.inners ir).getD []) c <;> rfl

theorem hSetdefaultOuter_outers_ne {α : Type} (st : Store α) (o : Nat)
    (e : String) (k : Nat) (hk : k ≠ o) :
    aget (hSetdefaultOuter st o e).1.outers k = aget st.outers k := by
  unfold hSetdefaultOuter
  cases aget ((aget st.outers o).getD []) e with
  | some ir => rfl
  | none => exact aget_aset_ne _ _ _ _ hk

/-- `hAddSpec` writes the outer-dict component only at its target
reference: any other outer dict object is untouched. -/
theorem hAddSpec_outers_ne {α : Type} (st : Store α) (o : Nat) (e c : String)
    (v : α) (k : Nat) (hk : k ≠ o) :
    aget (hAddSpec st o e c v).outers k = aget st.outers k := by
  unfold hAddSpec
  rw [hAppendList_outers, hSetdefaultInner_outers,
    hSetdefaultOuter_outers_ne _ _ _ _ hk]

theorem aget_append_single_ne {κ α : Type} [DecidableEq κ]
    (l : List (κ × α)) (n k : κ) (x : α) (hk : k ≠ n) :
    aget (l ++ [(n, x)]) k = aget l k := by
  cases hg : aget l k with
  | some v => exact aget_append_of_some _ _ _ _ hg
  | none =>
    rw [aget_append_of_none _ _ _ hg]
    simp [aget, Ne.symm hk]

theorem hAddSpec_fold_outers_ne {α : Type} (ts : List (String × String × α))
    (st : Store α) (o k : Nat) (hk : k ≠ o) :
    aget ((ts.foldl (fun s t => hAddSpec s o t.1 t.2.1 t.2.2) st).outers) k
      = aget st.outers k := by
  induction ts generalizing st with
  | nil => rfl
  | cons t rest ih =>
    simp only [List.foldl_cons]
    rw [ih, hAddSpec_outers_ne _ _ _ _ _ _ hk]

theorem hCloneDict_snd {α : Type} (st : Store α) (src : Nat) :
    (hCloneDict st src).2 = st.next := rfl

/-- Cloning allocates only fresh objects: every outer dict at a reference
other than the fresh one reads back unchanged. -/
theorem hCloneDict_outers_ne {α : Type} (st : Store α) (src k : Nat)
    (hk : k ≠ st.next) :
    aget (hCloneDict st src).1.outers k = aget st.outers k := by
  unfold hCloneDict
  rw [hAddSpec_fold_outers_ne _ _ _ _ hk]
  exact aget_append_single_ne _ _ _ _ hk

/-- C3: `clone` marks the result initialized and initializes first when
needed; for well-formed tables the cloned tables equal the source tables
(same Spec values); and in the heap model the copies are structurally
independent: adding an entry to the clone's encoder table leaves the
source's `get_encodings` view unchanged, and adding to the source leaves
the clone's unchanged. -/
theorem C3_clone :
    (∀ (env : Env) (reg : VideoHelper), (clone env reg).inited = true)
    ∧ (∀ (env : Env) (reg : VideoHelper), reg.inited = false →
        clone env reg = clone env (init env reg))
    ∧ (∀ (α : Type) (d : Dict (Dict (List α))),
        (d.map Prod.fst).Nodup →
        (∀ p ∈ d, (p.2.map Prod.fst).Nodup) →
        (∀ p ∈ d, p.2 ≠ []) →
        (∀ p ∈ d, ∀ q ∈ p.2, q.2 ≠ []) →
          deepish_clone_dict d = d)
    ∧ (∀ (hs : HState) (r : HVideoHelper), r.vencRef < hs.encs.next →
        (hClone hs r).2.inited = true
        ∧ hDictKeys (hCloneDict hs.encs r.vencRef).1 r.vencRef
            = hDictKeys hs.encs r.vencRef
        ∧ (∀ (e c : String) (s : Spec),
            hDictKeys (hAddSpec (hCloneDict hs.encs r.vencRef).1
                (hCloneDict hs.encs r.vencRef).2 e c s) r.vencRef
              = hDictKeys hs.encs r.vencRef)
        ∧ (∀ (e c : String) (s : Spec),
            hDictKeys (hAddSpec (hCloneDict hs.encs r.vencRef).1 r.vencRef e c s)
                (hCloneDict hs.encs r.vencRef).2
              = hDictKeys (hCloneDict hs.encs r.vencRef).1
                  (hCloneDict hs.encs r.vencRef).2)) := by
  refine ⟨fun env reg => rfl, ?_, ?_, ?_⟩
  · intro env reg h
    unfold clone
    rw [h, init_inited env reg]
    simp
  · intro α d h1 h2 h3 h4
    exact deepish_clone_dict_id d h1 h2 h3 h4
  · intro hs r hlt
    have hne : r.vencRef ≠ hs.encs.next := Nat.ne_of_lt hlt
    have hd0 : hDictKeys (hCloneDict hs.encs r.vencRef).1 r.vencRef
        = hDictKeys hs.encs r.vencRef := by
      unfold hDictKeys
      rw [hCloneDict_outers_ne _ _ _ hne]
    refine ⟨rfl, hd0, ?_, ?_⟩
    · intro e c s
      unfold hDictKeys
      rw [hAddSpec_outers_ne _ _ _ _ _ _ (hCloneDict_snd hs.encs r.vencRef ▸ hne)]
      rw [hCloneDict_outers_ne _ _ _ hne]
    · intro e c s
      unfold hDictKeys
      rw [hAddSpec_outers_ne _ _ _ _ _ _
        (hCloneDict_snd hs.encs r.vencRef ▸ (Ne.symm hne))]

/-- C3 witness: the replay identity on `exReg1`'s decoder table, and heap
independence on the concrete one-entry store `exStore3`. -/
theorem C3_witness :
    deepish_clone_dict exReg1._video_decoder_specs
        = exReg1._video_decoder_specs
    ∧ hDictKeys
          (hAddSpec (hCloneDict exHState3.encs exHReg3.vencRef).1
            (hCloneDict exHState3.encs exHReg3.vencRef).2 "e9" "c9"
            { codec_type := "w", details := 1 })
          exHReg3.vencRef
        = hDictKeys exHState3.encs exHReg3.vencRef := by
  constructor
  · refine C3_clone.2.2.1 DecoderEntry exReg1._video_decoder_specs
      (by decide) ?_ ?_ ?_
    · intro p hp
      rw [List.mem_singleton.mp hp]
      decide
    · intro p hp
      rw [List.mem_singleton.mp hp]
      simp
    · intro p hp q hq
      rw [List.mem_singleton.mp hp] at hq
      rw [List.mem_singleton.mp hq]
      simp
  · exact ((C3_clone.2.2.2 exHState3 exHReg3 (by decide)).2.2.1 "e9" "c9"
      { codec_type := "w", details := 1 })

end XpraVideo
